import Mathlib

/-!
Verification of the compiler front-end / mid-end of `corani/refactored-giggle`.

The development shallowly embeds three components of the repository:

* the lowering visitor from the typed AST to the SSA-style IR
  (`src/unnamed/part_002`, package `ir`), in namespace `Low`;
* the tokenizer (`src/lexer/tokenizer.go`), in namespace `Lex`;
* the Pratt expression parser and the implicit-return logic of the
  statement parser (`src/parser/parser.go`), in namespace `Par`.

Go strings are modelled as `List Char`, Go byte streams as `List Nat`,
Go `int` as `Int` with explicit 64-bit range checks where the source
checks them (`strconv.Atoi`).  Fallible code returns `Except`; Go
panics are modelled as distinguished error values.  Recursive visitors
are written as single fuel-indexed functions so that every definition
is executable and reduces in the kernel; all claims about lowering or
parsing results are stated for arbitrary fuel, conditioned on success.
-/

deriving instance DecidableEq for Except

namespace Low

/-- Go string (identifier, label, string literal payload). -/
abbrev Name := List Char

/-! ### Decimal rendering, mirroring `fmt.Sprintf("%04d", n)` -/

/-- Fueled digit accumulator behind `natToDigits`; `fuel > n` always
suffices, since a number has at most `n + 1` decimal digits. -/
def digitsGo : Nat → Nat → List Char → List Char
  | 0, _, acc => acc
  | fuel + 1, n, acc =>
    if n < 10 then Char.ofNat (48 + n) :: acc
    else digitsGo fuel (n / 10) (Char.ofNat (48 + n % 10) :: acc)

/-- Decimal digits of `n`, most significant first (embedding of `%d`). -/
def natToDigits (n : Nat) : List Char := digitsGo (n + 1) n []

/-- Zero-pad a digit string to width 4 (embedding of the `%04d` width). -/
def pad4 (ds : List Char) : List Char :=
  List.replicate (4 - ds.length) '0' ++ ds

/-- `fmt.Sprintf("L%04d_%s", n, tag)` from `visitor.nextLabel`. -/
def mkLabel (n : Nat) (tag : Name) : Name :=
  'L' :: pad4 (natToDigits n) ++ '_' :: tag

/-- `fmt.Sprintf("_%s_%04d", pre, n)` from `visitor.nextIdent`. -/
def mkIdent (pre : Name) (n : Nat) : Name :=
  '_' :: pre ++ '_' :: pad4 (natToDigits n)

/-- Value of a decimal digit character. -/
def digitVal (c : Char) : Nat := c.toNat - 48

/-- Is `c` a decimal digit? -/
def isDigitCh (c : Char) : Bool := 48 ≤ c.toNat && c.toNat ≤ 57

/-- Read a digit string back as a number (proof-side inverse of `natToDigits`). -/
def parseDigits (l : List Char) : Nat :=
  l.foldl (fun a c => a * 10 + digitVal c) 0

/-- Numeric part of a generated label `LNNNN_tag`: the digits between the
leading `L` and the first underscore. -/
def labelNum (nm : Name) : Option Nat :=
  match nm with
  | 'L' :: rest => some (parseDigits (rest.takeWhile (fun c => isDigitCh c)))
  | _ => none

/-- Numeric part of a generated identifier `_pre_NNNN`: the digits after the
second underscore. -/
def identNum (nm : Name) : Option Nat :=
  match nm with
  | '_' :: rest =>
    match rest.dropWhile (fun c => c ≠ '_') with
    | '_' :: ds => some (parseDigits ds)
    | _ => none
  | _ => none

/-! ### AST model (package `ast`, as consumed by the lowering visitor) -/

/-- `ast.TypeKind` (src/unnamed/part_003). -/
inductive TypeKind where
  | unknown | int | bool | string | void | pointer | array | any | vararg
deriving DecidableEq

/-- `ast.Type` (src/unnamed/part_003): kind plus optional element type.
The `Size` and location fields are not consulted by the lowering visitor
and are omitted. -/
inductive AstType where
  | mk (kind : TypeKind) (elem : Option AstType)

/-- Kind projection of `ast.Type`. -/
def AstType.kind : AstType → TypeKind
  | .mk k _ => k

/-- Element projection of `ast.Type`. -/
def AstType.elem : AstType → Option AstType
  | .mk _ e => e

/-- `ast.BinOpKind`. -/
inductive AstBinOp where
  | add | sub | mul | div | eq | ne | lt | le | gt | ge
  | shl | shr | and | or | logAnd | logOr
deriving DecidableEq

mutual
/-- `ast.Expression` variants visited by the lowering visitor:
`Literal`, `VariableRef`, `Deref`, `Binop`, `Call`. -/
inductive Expr where
  | literal (ty : Option AstType) (intVal : Int) (boolVal : Bool) (strVal : Name)
  | variableRef (ident : Name) (ty : Option AstType)
  | deref (e : Expr) (ty : Option AstType)
  | binop (op : AstBinOp) (lhs rhs : Expr) (ty : Option AstType)
  | call (ident : Name) (args : List Arg) (ty : Option AstType)

/-- `ast.Arg`: argument value plus its checked type. -/
inductive Arg where
  | mk (value : Expr) (ty : Option AstType)

/-- `ast.LValue`: only `VariableRef` and `Deref` implement it
(src/unnamed/part_000 `parseLValue`, and the type switch in `VisitAssign`). -/
inductive LValue where
  | var (ident : Name) (ty : Option AstType)
  | deref (e : Expr) (ty : Option AstType)

/-- `ast.Instruction` variants visited by the lowering visitor:
`Declare`, `Assign`, `Call`, `Return`, `If`, `For`, and `Body`
(a block used as an instruction, e.g. an `else` branch). -/
inductive Instr where
  | declare (ident : Name) (ty : Option AstType)
  | assign (lhs : LValue) (value : Expr)
  | call (ident : Name) (args : List Arg) (ty : Option AstType)
  | ret (value : Option Expr)
  | ifS (init : List Instr) (cond : Expr) (thenB : List Instr) (els : Option Instr)
  | forS (init : List Instr) (cond : Expr) (post : List Instr) (body : List Instr)
  | body (instrs : List Instr)
end

/-- Argument value projection. -/
def Arg.value : Arg → Expr
  | .mk v _ => v

/-- Argument type projection. -/
def Arg.ty : Arg → Option AstType
  | .mk _ t => t

/-- `ast.AttrValue`: none, string or integer payload. -/
inductive AttrVal where
  | unit
  | str (s : Name)
  | int (i : Int)

/-- The two attributes the lowering visitor consults on a function:
`linkname` and `export` (`VisitFuncDef`). -/
structure FuncAttrs where
  linkname : Option AttrVal
  exported : Bool

/-- `ast.FuncParam` as consumed by `VisitFuncParam`: name and type. -/
structure AstParam where
  ident : Name
  ty : Option AstType

/-- `ast.FuncDef` as consumed by `VisitFuncDef`. -/
structure AstFuncDef where
  ident : Name
  attrs : FuncAttrs
  params : List AstParam
  returnType : Option AstType
  funcBody : Option (List Instr)

/-- `ast.CompilationUnit` as consumed by `VisitCompilationUnit`.  The
`Types` and `Data` lists are visited by no-op visitors
(`VisitTypeDef` / `VisitDataDef` are unimplemented in the source), so
only the function list is modelled. -/
structure AstUnit where
  funcs : List AstFuncDef

/-! ### IR model (package `ir`)

The IR node definitions live in a file of the repository that is not
under `src/`; only the lowering visitor that builds them is.  The
constructors below are modelled from the spec (section 3, "IR Value",
"IR Instruction", "IR Function", "IR Data definition") and from the
constructor calls in `src/unnamed/part_002`
(`NewValInteger`, `NewValGlobal`, `NewValIdent`, `NewBinop`, `NewCall`,
`NewRet`, `NewJnz`, `NewJmp`, `NewLabel`, `NewLoad`, `NewStore`,
`NewDataDefStringZ`, `NewFuncDef`, `NewParamRegular`, `NewAbiTyBase`). -/

/-- IR ABI type: `w` (word) or `l` (long); `mapTypeToAbiTy` produces no
other base type. -/
inductive AbiTy where
  | word | long
deriving DecidableEq

/-- IR value: integer constant, global symbol, or local identifier. -/
inductive Val where
  | int (i : Int)
  | global (ident : Name)
  | ident (ident : Name)
deriving DecidableEq

/-- IR binary operation kinds used by the visitor. -/
inductive IrBinOp where
  | add | sub | mul | div | eq | ne | lt | le | gt | ge
  | shl | shr | and | or
deriving DecidableEq

/-- One argument of an IR call: ABI type and value.  The value is an
`Option` because the visitor passes the possibly-nil `lastVal` pointer. -/
structure CallArg where
  abiTy : AbiTy
  val : Option Val
deriving DecidableEq

/-- IR instruction.  Fields that receive the visitor's `lastVal`
pointer are `Option Val`. -/
inductive IrInstr where
  | binop (op : IrBinOp) (dest lhs rhs : Option Val)
  | call (retDest : Option (Name × AbiTy)) (callee : Val) (args : List CallArg)
  | ret (val : Option Val)
  | jnz (cond : Option Val) (ifTrue ifFalse : Name)
  | jmp (label : Name)
  | label (name : Name)
  | load (dest : Val) (addr : Option Val)
  | store (addr val : Option Val)
deriving DecidableEq

/-- IR data definition produced by `NewDataDefStringZ`: name plus the
string payload (emitted as bytes followed by a zero byte). -/
structure DataDef where
  ident : Name
  strz : Name
deriving DecidableEq

/-- IR function parameter (`NewParamRegular`). -/
structure IrParam where
  abiTy : AbiTy
  ident : Name
deriving DecidableEq

/-- IR function definition. -/
structure IrFuncDef where
  ident : Name
  linkName : Name
  params : List IrParam
  retTy : Option AbiTy
  exported : Bool
  blocks : List (Name × List IrInstr)
deriving DecidableEq

/-- IR compilation unit: interned string data plus functions. -/
structure IrUnit where
  dataDefs : List DataDef
  funcDefs : List IrFuncDef
deriving DecidableEq

/-! ### The lowering visitor state -/

/-- The mutable state of `ir.visitor`: the unit being built, the
pending instruction list of the current function, the shared
temporary/string/index counter, the label counter, and the
`lastVal` / `lastType` result slots. -/
structure VS where
  dataDefs : List DataDef
  funcDefs : List IrFuncDef
  instrs : List IrInstr
  tmpCounter : Nat
  labelCounter : Nat
  lastVal : Option Val
  lastType : Option AstType

/-- `visitor.nextIdent`: bump the shared counter, render `_pre_NNNN`. -/
def nextIdent (pre : Name) (s : VS) : Name × VS :=
  (mkIdent pre (s.tmpCounter + 1), { s with tmpCounter := s.tmpCounter + 1 })

/-- `visitor.nextLabel`: bump the label counter, render `LNNNN_tag`. -/
def nextLabel (tag : Name) (s : VS) : Name × VS :=
  (mkLabel (s.labelCounter + 1) tag, { s with labelCounter := s.labelCounter + 1 })

/-- Is this instruction a `Ret`? (the type assertion in `appendInstruction`). -/
def isRet : IrInstr → Bool
  | .ret _ => true
  | _ => false

/-- Is this instruction a `Label`? -/
def isLabel : IrInstr → Bool
  | .label _ => true
  | _ => false

/-- `visitor.appendInstruction`: labels append directly; any other
instruction appended right after a `Ret` is preceded by a fresh
`LNNNN_block` label. -/
def appendInstr (i : IrInstr) (s : VS) : VS :=
  if isLabel i then { s with instrs := s.instrs ++ [i] }
  else
    match s.instrs.getLast? with
    | some last =>
      if isRet last then
        let (lbl, s1) := nextLabel ['b','l','o','c','k'] s
        { s1 with instrs := s1.instrs ++ [.label lbl, i] }
      else { s with instrs := s.instrs ++ [i] }
    | none => { s with instrs := s.instrs ++ [i] }

/-- `visitor.mapTypeToAbiTy`. -/
def mapTypeToAbiTy : Option AstType → AbiTy
  | none => .word
  | some t =>
    match t.kind with
    | .int => .word
    | .string => .long
    | .pointer => .long
    | _ => .word

/-- Map `ast.BinOpKind` to `ir.BinOpKind` (the `binOpMap` literal);
`logAnd` / `logOr` are intercepted before the map is consulted. -/
def binOpMap : AstBinOp → IrBinOp
  | .add => .add | .sub => .sub | .mul => .mul | .div => .div
  | .eq => .eq | .ne => .ne | .lt => .lt | .le => .le
  | .gt => .gt | .ge => .ge | .shl => .shl | .shr => .shr
  | .and => .and | .or => .or
  | .logAnd => .add -- unreachable: handled before the map lookup
  | .logOr => .add  -- unreachable: handled before the map lookup

/-- Lowering errors: the panics of the visitor, plus fuel exhaustion of
the fuel-indexed embedding (never hit at adequate fuel). -/
inductive LErr where
  | fuel
  | litNilType      -- panic "literal has nil type"
  | litBadType      -- panic "unsupported literal type"
  | linknameNotStr  -- panic "link_name attribute must be a string"
deriving DecidableEq

/-- Work items of the fuel-indexed lowering function: an expression, an
instruction, an instruction sequence (a body), or a call argument list. -/
inductive Task where
  | expr (e : Expr)
  | instr (i : Instr)
  | seq (l : List Instr)
  | args (l : List Arg)

/-- Result of one lowering step: the new state, plus the lowered call
arguments when the task was an argument list (`[]` otherwise). -/
structure LowOut where
  st : VS
  outArgs : List CallArg

/-- Does the unbound `result` slot of a call get a destination?
(`c.Type != nil && c.Type.Kind != ast.TypeVoid` in `VisitCall`). -/
def callHasRet (ty : Option AstType) : Bool :=
  match ty with
  | none => false
  | some t => t.kind ≠ TypeKind.void

/-- Linkname substitution in `VisitCall`: the first already-lowered
function with the same name and a nonempty link name. -/
def resolveCallee (ident : Name) (fds : List IrFuncDef) : Name :=
  match fds.find? (fun fd => fd.ident = ident ∧ fd.linkName ≠ []) with
  | some fd => fd.linkName
  | none => ident

/-- The fuel-indexed lowering visitor.  Each case mirrors the
corresponding `Visit*` method of `src/unnamed/part_002`. -/
def lowerGo : Nat → Task → VS → Except LErr LowOut
  | 0, _, _ => .error .fuel
  | fuel + 1, t, s =>
    match t with
    | .expr e =>
      match e with
      | .literal ty _i b sv =>
        -- VisitLiteral
        match ty with
        | none => .error .litNilType
        | some tt =>
          match tt.kind with
          | .int => .ok ⟨{ s with lastVal := some (.int _i), lastType := ty }, []⟩
          | .bool =>
            .ok ⟨{ s with lastVal := some (.int (if b then 1 else 0)), lastType := ty }, []⟩
          | .string =>
            let (id, s1) := nextIdent ['s','t','r'] s
            .ok ⟨{ s1 with dataDefs := s1.dataDefs ++ [⟨id, sv⟩],
                           lastVal := some (.global id), lastType := ty }, []⟩
          | _ => .error .litBadType
      | .variableRef x ty =>
        -- VisitVariableRef
        .ok ⟨{ s with lastVal := some (.ident x), lastType := ty }, []⟩
      | .deref e1 ty => do
        -- VisitDeref
        let r ← lowerGo fuel (.expr e1) s
        let addr := r.st.lastVal
        let (tmp, s2) := nextIdent ['t','m','p'] r.st
        let s3 := appendInstr (.load (.ident tmp) addr) s2
        .ok ⟨{ s3 with lastVal := some (.ident tmp), lastType := ty }, []⟩
      | .binop op l r ty => do
        -- VisitBinop
        let r1 ← lowerGo fuel (.expr l) { s with lastVal := none, lastType := none }
        let left := r1.st.lastVal
        let leftType := r1.st.lastType
        let (result, s2) := nextIdent ['t','m','p'] r1.st
        match op with
        | .logAnd => do
          let (tLbl, s3) := nextLabel ['t','r','u','e'] s2
          let (fLbl, s4) := nextLabel ['f','a','l','s','e'] s3
          let (eLbl, s5) := nextLabel ['e','n','d'] s4
          let s6 := appendInstr (.jnz left tLbl fLbl) s5
          let s7 := appendInstr (.label fLbl) s6
          let s8 := appendInstr (.binop .add (some (.ident result)) left (some (.int 0))) s7
          let s9 := appendInstr (.jmp eLbl) s8
          let s10 := appendInstr (.label tLbl) s9
          let r2 ← lowerGo fuel (.expr r) s10
          let right := r2.st.lastVal
          let s11 := appendInstr (.binop .add (some (.ident result)) right (some (.int 0))) r2.st
          let s12 := appendInstr (.label eLbl) s11
          .ok ⟨{ s12 with lastVal := some (.ident result) }, []⟩
        | .logOr => do
          let (tLbl, s3) := nextLabel ['t','r','u','e'] s2
          let (fLbl, s4) := nextLabel ['f','a','l','s','e'] s3
          let (eLbl, s5) := nextLabel ['e','n','d'] s4
          let s6 := appendInstr (.jnz left tLbl fLbl) s5
          let s7 := appendInstr (.label tLbl) s6
          let s8 := appendInstr (.binop .add (some (.ident result)) left (some (.int 0))) s7
          let s9 := appendInstr (.jmp eLbl) s8
          let s10 := appendInstr (.label fLbl) s9
          let r2 ← lowerGo fuel (.expr r) s10
          let right := r2.st.lastVal
          let s11 := appendInstr (.binop .add (some (.ident result)) right (some (.int 0))) r2.st
          let s12 := appendInstr (.label eLbl) s11
          .ok ⟨{ s12 with lastVal := some (.ident result) }, []⟩
        | _ => do
          let r2 ← lowerGo fuel (.expr r) { s2 with lastVal := none, lastType := none }
          let right := r2.st.lastVal
          let rightType := r2.st.lastType
          let irOp := binOpMap op
          let isLhsPtr : Bool := match leftType with
            | some t => t.kind == TypeKind.pointer
            | none => false
          let isRhsPtr : Bool := match rightType with
            | some t => t.kind == TypeKind.pointer
            | none => false
          if (op = AstBinOp.add ∨ op = AstBinOp.sub) ∧ (isLhsPtr ≠ isRhsPtr) then
            -- pointer arithmetic scaling; elemSize is 4 in every branch of the
            -- source, so the `elemSize != 1` guard is always taken
            let ptrSide := if isLhsPtr then left else right
            let intSide := if isLhsPtr then right else left
            let (idx, s3) := nextIdent ['i','d','x'] r2.st
            let s4 := appendInstr (.binop .mul (some (.ident idx)) intSide (some (.int 4))) s3
            let s5 := appendInstr (.binop irOp (some (.ident result)) ptrSide (some (.ident idx))) s4
            .ok ⟨{ s5 with lastVal := some (.ident result), lastType := ty }, []⟩
          else
            let s3 := appendInstr (.binop irOp (some (.ident result)) left right) r2.st
            .ok ⟨{ s3 with lastVal := some (.ident result), lastType := ty }, []⟩
      | .call ident args ty => do
        -- VisitCall (expression position)
        let callee := resolveCallee ident s.funcDefs
        let ra ← lowerGo fuel (.args args) s
        let (retId, s2) := nextIdent ['t','m','p'] ra.st
        let retDest := if callHasRet ty then some (retId, mapTypeToAbiTy ty) else none
        let s3 := appendInstr (.call retDest (.global callee) ra.outArgs) s2
        .ok ⟨{ s3 with lastVal := some (.ident retId) }, []⟩
    | .args l =>
      match l with
      | [] => .ok ⟨s, []⟩
      | a :: rest => do
        let r1 ← lowerGo fuel (.expr a.value) { s with lastVal := none }
        let r2 ← lowerGo fuel (.args rest) r1.st
        .ok ⟨r2.st, ⟨mapTypeToAbiTy a.ty, r1.st.lastVal⟩ :: r2.outArgs⟩
    | .instr i =>
      match i with
      | .declare _ _ =>
        -- VisitDeclare: no IR emitted
        .ok ⟨s, []⟩
      | .assign lhs value => do
        -- VisitAssign
        let rv ← lowerGo fuel (.expr value) { s with lastVal := none }
        let val := rv.st.lastVal
        let s1 := { rv.st with lastVal := none }
        match lhs with
        | .deref p _ty => do
          let rp ← lowerGo fuel (.expr p) s1
          let addr := rp.st.lastVal
          .ok ⟨appendInstr (.store addr val) rp.st, []⟩
        | .var x ty =>
          let s2 := { s1 with lastVal := some (.ident x), lastType := ty }
          let lhsVal := s2.lastVal
          .ok ⟨appendInstr (.binop .add lhsVal val (some (.int 0))) s2, []⟩
      | .call ident args ty => do
        -- VisitCall (statement position): identical code path
        let callee := resolveCallee ident s.funcDefs
        let ra ← lowerGo fuel (.args args) s
        let (retId, s2) := nextIdent ['t','m','p'] ra.st
        let retDest := if callHasRet ty then some (retId, mapTypeToAbiTy ty) else none
        let s3 := appendInstr (.call retDest (.global callee) ra.outArgs) s2
        .ok ⟨{ s3 with lastVal := some (.ident retId) }, []⟩
      | .ret value =>
        -- VisitReturn
        match value with
        | none => .ok ⟨appendInstr (.ret none) s, []⟩
        | some e => do
          let rv ← lowerGo fuel (.expr e) { s with lastVal := none }
          .ok ⟨appendInstr (.ret rv.st.lastVal) rv.st, []⟩
      | .ifS init cond thenB els => do
        -- VisitIf
        let (tLbl, s1) := nextLabel ['t','h','e','n'] s
        let (fLbl, s2) := nextLabel ['e','l','s','e'] s1
        let (eLbl, s3) := nextLabel ['e','n','d'] s2
        let ri ← lowerGo fuel (.seq init) s3
        let rc ← lowerGo fuel (.expr cond) ri.st
        let s4 := appendInstr (.jnz rc.st.lastVal tLbl fLbl) rc.st
        let s5 := appendInstr (.label tLbl) s4
        let rt ← lowerGo fuel (.seq thenB) s5
        let s6 := appendInstr (.jmp eLbl) rt.st
        let s7 := appendInstr (.label fLbl) s6
        let re ← match els with
          | none => Except.ok (⟨s7, []⟩ : LowOut)
          | some e => lowerGo fuel (.instr e) s7
        .ok ⟨appendInstr (.label eLbl) re.st, []⟩
      | .forS init cond post bodyB => do
        -- VisitFor
        let (sLbl, s1) := nextLabel ['f','o','r'] s
        let (bLbl, s2) := nextLabel ['b','o','d','y'] s1
        let (eLbl, s3) := nextLabel ['e','n','d'] s2
        let ri ← lowerGo fuel (.seq init) s3
        let s4 := appendInstr (.label sLbl) ri.st
        let rc ← lowerGo fuel (.expr cond) s4
        let s5 := appendInstr (.jnz rc.st.lastVal bLbl eLbl) rc.st
        let s6 := appendInstr (.label bLbl) s5
        let rb ← lowerGo fuel (.seq bodyB) s6
        let rp ← lowerGo fuel (.seq post) rb.st
        let s7 := appendInstr (.jmp sLbl) rp.st
        .ok ⟨appendInstr (.label eLbl) s7, []⟩
      | .body instrs =>
        -- VisitBody used as an instruction (e.g. an else branch)
        lowerGo fuel (.seq instrs) s
    | .seq l =>
      match l with
      | [] => .ok ⟨s, []⟩
      | i :: rest => do
        let r1 ← lowerGo fuel (.instr i) s
        lowerGo fuel (.seq rest) r1.st

/-- `visitor.VisitFuncDef`: reset the label counter and the pending
instruction list, lower parameters, build the IR function shell
(link name, return ABI type, linkage), lower the body if present, and
append the function to the unit. -/
def lowerFuncDef (fuel : Nat) (fd : AstFuncDef) (s : VS) : Except LErr VS := do
  let s := { s with labelCounter := 0, instrs := [] }
  let params := fd.params.map (fun p => IrParam.mk (mapTypeToAbiTy p.ty) p.ident)
  let linkName ← match fd.attrs.linkname with
    | none => Except.ok ([] : Name)
    | some (.str nm) => Except.ok nm
    | some _ => Except.error LErr.linknameNotStr
  let retTy := match fd.returnType with
    | some t => if t.kind ≠ TypeKind.void then some (mapTypeToAbiTy fd.returnType) else none
    | none => none
  let shell : IrFuncDef :=
    { ident := fd.ident, linkName := linkName, params := params,
      retTy := retTy, exported := fd.attrs.exported, blocks := [] }
  match fd.funcBody with
  | none => .ok { s with funcDefs := s.funcDefs ++ [shell] }
  | some b => do
    let r ← lowerGo fuel (.seq b) s
    let fn := { shell with blocks := [(['s','t','a','r','t'], r.st.instrs)] }
    .ok { r.st with funcDefs := r.st.funcDefs ++ [fn] }

/-- Lower a list of function definitions in order. -/
def lowerFuncs (fuel : Nat) (fds : List AstFuncDef) (s : VS) : Except LErr VS :=
  match fds with
  | [] => .ok s
  | fd :: rest => do
    let s1 ← lowerFuncDef fuel fd s
    lowerFuncs fuel rest s1

/-- The initial visitor state (`newVisitor`). -/
def initVS : VS :=
  { dataDefs := [], funcDefs := [], instrs := [],
    tmpCounter := 0, labelCounter := 0, lastVal := none, lastType := none }

/-- `ir.Lower`: run the visitor over the compilation unit and extract
the built IR unit. -/
def lowerUnit (fuel : Nat) (u : AstUnit) : Except LErr IrUnit := do
  let s ← lowerFuncs fuel u.funcs initVS
  .ok { dataDefs := s.dataDefs, funcDefs := s.funcDefs }

/-! ### Observations on IR instruction lists used by the claims -/

/-- The local identifier written by an instruction, if any: the
destination of a `Binop` or `Load`, or the bound return of a `Call`. -/
def destIdent : IrInstr → Option Name
  | .binop _ (some (.ident x)) _ _ => some x
  | .call (some (x, _)) _ _ => some x
  | .load (.ident x) _ => some x
  | _ => none

/-- How many instructions of `l` write the local `x`. -/
def countDest (l : List IrInstr) (x : Name) : Nat :=
  (l.filter (fun i => destIdent i = some x)).length

/-- Names of the `Label` instructions of a list, in order. -/
def labelsOf (l : List IrInstr) : List Name :=
  l.filterMap (fun i => match i with | .label nm => some nm | _ => none)

/-- Labels named as jump targets by one instruction. -/
def targetsOfI : IrInstr → List Name
  | .jnz _ t f => [t, f]
  | .jmp l => [l]
  | _ => []

/-- Labels named as jump targets anywhere in a list. -/
def targetsOf (l : List IrInstr) : List Name :=
  l.flatMap targetsOfI

/-- Does the list end with a `Ret`?  (the condition `appendInstruction`
inspects before appending a non-label instruction). -/
def endsRet (l : List IrInstr) : Bool :=
  match l.getLast? with
  | some i => isRet i
  | none => false

/-- Adjacency check for the spec invariant "no instruction follows a
`Return` in the same basic block": every instruction immediately after
a `Ret` is a `Label`. -/
def retLabelChk : List IrInstr → Bool
  | [] => true
  | [_] => true
  | a :: b :: rest => (!isRet a || isLabel b) && retLabelChk (b :: rest)

/-- The bound return slots of the `Call` instructions of a list. -/
def callRets (l : List IrInstr) : List (Option (Name × AbiTy)) :=
  l.filterMap (fun i => match i with | .call rd _ _ => some rd | _ => none)

/-- The instruction lists of all functions of a lowering result, one
entry per function (each function has a single `start` block). -/
def lowBodies (fuel : Nat) (u : AstUnit) : List (List IrInstr) :=
  match lowerUnit fuel u with
  | .ok ir => ir.funcDefs.map (fun fd => fd.blocks.flatMap Prod.snd)
  | .error _ => []

/-- Run `nextIdent` over a list of requested prefixes, returning the
generated names in order. -/
def nextIdents (pres : List Name) (s : VS) : List Name × VS :=
  match pres with
  | [] => ([], s)
  | p :: rest =>
    let (nm, s1) := nextIdent p s
    let (nms, s2) := nextIdents rest s1
    (nm :: nms, s2)

/-! ### Concrete demonstration inputs (typed ASTs as the checker would
deliver them to the lowering visitor) -/

/-- The type `int`. -/
def intTy : Option AstType := some (.mk .int none)

/-- The type `bool`. -/
def boolTy : Option AstType := some (.mk .bool none)

/-- The type `string`. -/
def strTy : Option AstType := some (.mk .string none)

/-- The type `void`. -/
def voidTy : Option AstType := some (.mk .void none)

/-- An `int` literal expression. -/
def litI (n : Int) : Expr := .literal intTy n false []

/-- A `bool` literal expression. -/
def litB (b : Bool) : Expr := .literal boolTy 0 b []

/-- A function named `nm` with no parameters, `void` return type, no
attributes and the given body. -/
def mkVoidFn (nm : Name) (b : List Instr) : AstFuncDef :=
  { ident := nm, attrs := ⟨none, false⟩, params := [],
    returnType := voidTy, funcBody := some b }

/-- `b := true && false` — a short-circuit AND whose lowered result
temporary is written by both arms. -/
def scAndBody : List Instr :=
  [ .declare ['b'] boolTy,
    .assign (.var ['b'] boolTy) (.binop .logAnd (litB true) (litB false) boolTy) ]

/-- One-function unit around `scAndBody`. -/
def scAndUnit : AstUnit := ⟨[mkVoidFn ['f'] scAndBody]⟩

/-- `x := 1; x = 2; return` — a variable assigned twice. -/
def dblAssignBody : List Instr :=
  [ .declare ['x'] intTy,
    .assign (.var ['x'] intTy) (litI 1),
    .assign (.var ['x'] intTy) (litI 2),
    .ret none ]

/-- One-function unit around `dblAssignBody`. -/
def dblAssignUnit : AstUnit := ⟨[mkVoidFn ['h'] dblAssignBody]⟩

/-- `y := 1 + 2; if true { } ` — one generated temporary and one `if`,
used to compare numbering across two identical functions. -/
def cntBody : List Instr :=
  [ .declare ['y'] intTy,
    .assign (.var ['y'] intTy) (.binop .add (litI 1) (litI 2) intTy),
    .ifS [] (litB true) [] none ]

/-- Two identical functions `f` and `g` with `cntBody`. -/
def twoFnUnit : AstUnit := ⟨[mkVoidFn ['f'] cntBody, mkVoidFn ['g'] cntBody]⟩

/-- `return; p()` — a statement textually after a `return`. -/
def retThenCallBody : List Instr :=
  [ .ret none, .call ['p'] [] voidTy ]

/-- One-function unit around `retThenCallBody`. -/
def retThenCallUnit : AstUnit := ⟨[mkVoidFn ['h'] retThenCallBody]⟩

/-- `y := p("Hi")` — a call whose first argument is a string literal and
whose `int` result is bound. -/
def callStrBody : List Instr :=
  [ .declare ['y'] intTy,
    .assign (.var ['y'] intTy)
      (.call ['p'] [.mk (.literal strTy 0 false ['H','i']) strTy] intTy) ]

/-- One-function unit around `callStrBody`. -/
def callStrUnit : AstUnit := ⟨[mkVoidFn ['h'] callStrBody]⟩

/-- `if true { return } ; p()` — exercises `if` labels, a `return`
inside a branch, and the synthetic block label after it. -/
def ifRetBody : List Instr :=
  [ .ifS [] (litB true) [.ret none] (some (.body [])),
    .call ['p'] [] voidTy ]

/-- One-function unit around `ifRetBody`. -/
def ifRetUnit : AstUnit := ⟨[mkVoidFn ['w'] ifRetBody]⟩

end Low

namespace Lex

/-!
### The tokenizer (`src/lexer/tokenizer.go`)

Bytes are `Nat`.  The `Scanner` component is code of the repository
that is not under `src/`; it is modelled from the spec (section 2:
"byte stream with line/column tracking and small pushback", section
4.1).  Only its position behaviour is observable by the claims.
-/

/-- A Go byte. -/
abbrev Byte := Nat

/-- Modelled from the spec: the missing `Scanner` component — a byte
stream with a read position, small pushback (`Unread`) and a location
query.  `Next` past the end reports `io.EOF`. -/
structure Scanner where
  input : List Byte
  pos : Nat

/-- Tokenizer-level errors: `io.EOF` from the scanner, an error from
`strconv.Atoi`, or fuel exhaustion of the embedding (never hit with
adequate fuel). -/
inductive TokErr where
  | eof
  | atoi
  | fuel
deriving DecidableEq

/-- Modelled from the spec: `Scanner.Next` returns the next byte or
`io.EOF`. -/
def Scanner.next (sc : Scanner) : Except TokErr (Byte × Scanner) :=
  match sc.input.get? sc.pos with
  | some b => .ok (b, { sc with pos := sc.pos + 1 })
  | none => .error .eof

/-- Modelled from the spec: `Scanner.Unread(n)` pushes back the last
`n` bytes. -/
def Scanner.unread (n : Nat) (sc : Scanner) : Scanner :=
  { sc with pos := sc.pos - n }

/-- Modelled from the spec: `Scanner.Location()` — the offset of the
byte just read (line/column bookkeeping is not observable here). -/
def Scanner.location (sc : Scanner) : Nat := sc.pos - 1

/-- `lexer.TokenType`. -/
inductive TokenType where
  | eofT | ident | keyword | number | str
  | lparen | rparen | lbrace | rbrace
  | comma | arrow | colon | atSign | equals | plus
deriving DecidableEq

/-- `lexer.Keyword`, with a zero value for tokens that carry none. -/
inductive Keyword where
  | none | kFunc | kReturn | kInt | kString | kVoid | kPackage
deriving DecidableEq

/-- `lexer.Token`. -/
structure Token where
  ty : TokenType
  kw : Keyword
  identifier : List Byte
  stringVal : List Byte
  numberVal : Int
  location : Nat
deriving DecidableEq

/-- `isWhitespace`. -/
def isWhitespace (c : Byte) : Bool := c = 32 || c = 9 || c = 10 || c = 13

/-- `isNumeric`. -/
def isNumeric (d : Byte) : Bool := 48 ≤ d && d ≤ 57

/-- `isAlpha`. -/
def isAlpha (a : Byte) : Bool :=
  (97 ≤ a && a ≤ 122) || (65 ≤ a && a ≤ 90) || a = 95

/-- `isAlphanumeric`. -/
def isAlphanumeric (a : Byte) : Bool := isAlpha a || isNumeric a

/-- The bytes of an ASCII string literal of the Go source. -/
def bytes (s : String) : List Byte := s.data.map Char.toNat

/-- `checkKeyword`. -/
def checkKeyword (ident : List Byte) : Option Keyword :=
  if ident = bytes "func" then some .kFunc
  else if ident = bytes "return" then some .kReturn
  else if ident = bytes "int" then some .kInt
  else if ident = bytes "string" then some .kString
  else if ident = bytes "void" then some .kVoid
  else if ident = bytes "package" then some .kPackage
  else none

/-- Decimal value of a digit-byte list. -/
def digitsVal (l : List Byte) : Nat :=
  l.foldl (fun a d => a * 10 + (d - 48)) 0

/-- `strconv.Atoi` on a 64-bit platform: optional sign, decimal digits,
error when empty, malformed, or out of the `int64` range. -/
def goAtoi (buf : List Byte) : Except TokErr Int :=
  let (neg, ds) := match buf with
    | 45 :: rest => (true, rest)
    | _ => (false, buf)
  if ds = [] then .error .atoi
  else if ds.any (fun d => !isNumeric d) then .error .atoi
  else
    let v : Int := if neg then -(digitsVal ds : Int) else (digitsVal ds : Int)
    if v < -(2 ^ 63) ∨ v > 2 ^ 63 - 1 then .error .atoi
    else .ok v

/-- A zero `Token` (the `Token{}` returned with every error). -/
def zeroTok : Token := ⟨.eofT, .none, [], [], 0, 0⟩

/-- The string-literal loop of `Tokenizer.next`: read until the closing
quote, keeping escape pairs verbatim; scanner EOF propagates. -/
def strBody (fuel : Nat) (buf : List Byte) (sc : Scanner) :
    Except TokErr (List Byte × Scanner) :=
  match fuel with
  | 0 => .error .fuel
  | fuel + 1 =>
    match sc.next with
    | .error e => .error e
    | .ok (c, sc1) =>
      if c = 34 then .ok (buf, sc1)
      else if c = 92 then
        match sc1.next with
        | .error e => .error e
        | .ok (c2, sc2) => strBody fuel (buf ++ [92, c2]) sc2
      else strBody fuel (buf ++ [c]) sc1

/-- The digit loop of `Tokenizer.next`: extend `buf` while numeric,
push back the first non-digit; scanner EOF propagates (losing the
token in progress). -/
def numBody (fuel : Nat) (buf : List Byte) (sc : Scanner) :
    Except TokErr (List Byte × Scanner) :=
  match fuel with
  | 0 => .error .fuel
  | fuel + 1 =>
    match sc.next with
    | .error e => .error e
    | .ok (c, sc1) =>
      if isNumeric c then numBody fuel (buf ++ [c]) sc1
      else .ok (buf, sc1.unread 1)

/-- The identifier loop of `Tokenizer.next`. -/
def identBody (fuel : Nat) (buf : List Byte) (sc : Scanner) :
    Except TokErr (List Byte × Scanner) :=
  match fuel with
  | 0 => .error .fuel
  | fuel + 1 =>
    match sc.next with
    | .error e => .error e
    | .ok (c, sc1) =>
      if isAlphanumeric c then identBody fuel (buf ++ [c]) sc1
      else .ok (buf, sc1.unread 1)

/-- The line-comment loop of `Tokenizer.next`: skip until a newline;
scanner EOF propagates. -/
def commentBody (fuel : Nat) (sc : Scanner) : Except TokErr Scanner :=
  match fuel with
  | 0 => .error .fuel
  | fuel + 1 =>
    match sc.next with
    | .error e => .error e
    | .ok (c, sc1) =>
      if c = 10 ∨ c = 13 then .ok sc1
      else commentBody fuel sc1

/-- `Tokenizer.next` (the token pushback buffer is never filled by
`Tokens` and is omitted).  `buf` is the in-progress token text, carried
across loop iterations exactly as in the source (this is how a leading
`-` is attached to a following numeral). -/
def nextTok (fuel : Nat) (buf : List Byte) (sc : Scanner) :
    Except TokErr (Token × Scanner) :=
  match fuel with
  | 0 => .error .fuel
  | fuel + 1 =>
    match sc.next with
    | .error e => .error e
    | .ok (c, sc1) =>
      let start := sc1.location
      if c = 61 then .ok ({ zeroTok with ty := .equals, stringVal := [c], location := start }, sc1)
      else if c = 40 then .ok ({ zeroTok with ty := .lparen, stringVal := [c], location := start }, sc1)
      else if c = 41 then .ok ({ zeroTok with ty := .rparen, stringVal := [c], location := start }, sc1)
      else if c = 123 then .ok ({ zeroTok with ty := .lbrace, stringVal := [c], location := start }, sc1)
      else if c = 125 then .ok ({ zeroTok with ty := .rbrace, stringVal := [c], location := start }, sc1)
      else if c = 44 then .ok ({ zeroTok with ty := .comma, stringVal := [c], location := start }, sc1)
      else if c = 58 then .ok ({ zeroTok with ty := .colon, stringVal := [c], location := start }, sc1)
      else if c = 64 then .ok ({ zeroTok with ty := .atSign, stringVal := [c], location := start }, sc1)
      else if c = 43 then .ok ({ zeroTok with ty := .plus, stringVal := [c], location := start }, sc1)
      else if c = 47 then
        match sc1.next with
        | .error e => .error e
        | .ok (c2, sc2) =>
          if c2 = 47 then
            match commentBody fuel sc2 with
            | .error e => .error e
            | .ok sc3 => nextTok fuel buf sc3
          else nextTok fuel buf (sc2.unread 1)
      else if c = 45 then
        match sc1.next with
        | .error e => .error e
        | .ok (c2, sc2) =>
          if c2 = 62 then .ok ({ zeroTok with ty := .arrow, stringVal := bytes "->", location := start }, sc2)
          else if isNumeric c2 then nextTok fuel (buf ++ [45]) (sc2.unread 1)
          else nextTok fuel buf (sc2.unread 1)
      else if isWhitespace c then nextTok fuel buf sc1
      else if c = 34 then
        match strBody fuel buf sc1 with
        | .error e => .error e
        | .ok (b, sc2) =>
          .ok ({ zeroTok with ty := .str, stringVal := b, location := start }, sc2)
      else if isNumeric c then
        match numBody fuel (buf ++ [c]) sc1 with
        | .error e => .error e
        | .ok (b, sc2) =>
          match goAtoi b with
          | .error e => .error e
          | .ok num =>
            .ok ({ zeroTok with ty := .number, numberVal := num, stringVal := b, location := start }, sc2)
      else if isAlpha c then
        match identBody fuel (buf ++ [c]) sc1 with
        | .error e => .error e
        | .ok (b, sc2) =>
          match checkKeyword b with
          | some kw =>
            .ok ({ zeroTok with ty := .keyword, kw := kw, identifier := b, stringVal := b, location := start }, sc2)
          | none =>
            .ok ({ zeroTok with ty := .ident, identifier := b, stringVal := b, location := start }, sc2)
      else nextTok fuel buf sc1

/-- The loop of `Tokenizer.Tokens`: accumulate tokens until an error;
`io.EOF` ends the loop successfully, any other error is returned. -/
def tokensGo (fuel : Nat) (acc : List Token) (sc : Scanner) :
    Except TokErr (List Token) :=
  match fuel with
  | 0 => .error .fuel
  | fuel + 1 =>
    match nextTok (sc.input.length + 1) [] sc with
    | .error .eof => .ok acc
    | .error e => .error e
    | .ok (t, sc1) => tokensGo fuel (acc ++ [t]) sc1

/-- `Tokenizer.Tokens` on a byte stream. -/
def Tokens (input : List Byte) : Except TokErr (List Token) :=
  tokensGo (input.length + 1) [] ⟨input, 0⟩

end Lex

namespace Par

/-!
### The parser (`src/parser/parser.go`)

The token stream of this parser snapshot is richer than the tokenizer
snapshot under `src/lexer`; its token-type and keyword enumerations are
those referenced by `parser.go`.  AST nodes are the shared `Low` AST;
the `ast.New*` constructor helpers are code of the repository not under
`src/` and are modelled from the spec (section 3 "Expression",
section 4.2: the parser leaves types `Unknown`/unset for the checker).
-/

open Low (Name Expr Arg Instr TypeKind AstBinOp AstType)

/-- `lexer.TokenType` as referenced by `parser.go`; `empty` is the Go
zero value `TokenType("")`. -/
inductive TokTy where
  | empty
  | ident | keyword | number | bool | str
  | lparen | rparen | lbrace | rbrace
  | comma | arrow | colon | atSign | assign | semicolon | caret
  | plus | minus | star | slash | shl | shr | binAnd | binOr
  | logAnd | logOr | eq | ne | lt | le | gt | ge
deriving DecidableEq, BEq

/-- `lexer.Keyword` as referenced by `parser.go`; `kNone` is the zero
value. -/
inductive Kw where
  | kNone
  | kPackage | kFunc | kReturn | kIf | kElse | kFor
  | kInt | kString | kBool | kVoid | kTrue | kFalse
deriving DecidableEq, BEq

/-- `lexer.Token` as consumed by the parser (location omitted: the
parser only prints it in error messages). -/
structure Tok where
  ty : TokTy
  kw : Kw
  stringVal : Name
  numberVal : Int
deriving DecidableEq

/-- The Go zero `Token`. -/
def zeroT : Tok := ⟨.empty, .kNone, [], 0⟩

/-- Parser errors: `io.EOF`, an ordinary `fmt.Errorf` error, a Go
panic, or fuel exhaustion of the embedding. -/
inductive PErr where
  | eof
  | err
  | panicked
  | fuel
deriving DecidableEq

/-- `Parser.nextToken`: the token at the index, or `io.EOF`. -/
def nextToken (toks : List Tok) (ix : Nat) : Tok × Nat × Option PErr :=
  match toks.get? ix with
  | some t => (t, ix + 1, none)
  | none => (zeroT, ix, some .eof)

/-- `Parser.expectType`: read one token and demand one of the given
types. -/
def expectType (toks : List Tok) (tts : List TokTy) (ix : Nat) :
    Tok × Nat × Option PErr :=
  let (t, ix1, e) := nextToken toks ix
  match e with
  | some e => (t, ix1, some e)
  | none => if tts.contains t.ty then (t, ix1, none) else (t, ix1, some .err)

/-- `Parser.peekType`: `expectType`, rolling the index back on a
non-EOF mismatch and clearing the error. -/
def peekType (toks : List Tok) (tts : List TokTy) (ix : Nat) :
    Tok × Nat × Option PErr :=
  let (t, ix1, e) := expectType toks tts ix
  match e with
  | some .eof => (t, ix1, some .eof)
  | some _ => (t, ix1 - 1, none)
  | none => (t, ix1, none)

/-- Modelled from the spec: `ast.NewIntLiteral`. -/
def NewIntLiteral (n : Int) : Expr := .literal (some (.mk .int none)) n false []

/-- Modelled from the spec: `ast.NewBoolLiteral`. -/
def NewBoolLiteral (b : Bool) : Expr := .literal (some (.mk .bool none)) 0 b []

/-- Modelled from the spec: `ast.NewStringLiteral`. -/
def NewStringLiteral (s : Name) : Expr := .literal (some (.mk .string none)) 0 false s

/-- Modelled from the spec: `ast.NewVariableRef`. -/
def NewVariableRef (s : Name) (k : TypeKind) : Expr := .variableRef s (some (.mk k none))

/-- Modelled from the spec: `ast.NewDeref` (type resolved later). -/
def NewDeref (e : Expr) : Expr := .deref e none

/-- Modelled from the spec: `ast.NewBinop` (type resolved later). -/
def NewBinop (k : AstBinOp) (l r : Expr) : Expr := .binop k l r none

/-- Modelled from the spec: `ast.NewCall` (type resolved later). -/
def NewCall (ident : Name) (args : List Arg) : Expr := .call ident args none

/-- The `opInfo` record of the Pratt parser. -/
structure OpInfo where
  precedence : Nat
  rightAssoc : Bool
  kind : AstBinOp
deriving DecidableEq

/-- The `opPrecedence` table literal of `parser.go`. -/
def opPrecedence : TokTy → Option OpInfo
  | .plus => some ⟨10, false, .add⟩
  | .minus => some ⟨10, false, .sub⟩
  | .star => some ⟨20, false, .mul⟩
  | .slash => some ⟨20, false, .div⟩
  | .shl => some ⟨15, false, .shl⟩
  | .shr => some ⟨15, false, .shr⟩
  | .binAnd => some ⟨8, false, .and⟩
  | .binOr => some ⟨6, false, .or⟩
  | .logAnd => some ⟨4, false, .logAnd⟩
  | .logOr => some ⟨3, false, .logOr⟩
  | .eq => some ⟨5, false, .eq⟩
  | .ne => some ⟨5, false, .ne⟩
  | .lt => some ⟨7, false, .lt⟩
  | .le => some ⟨7, false, .le⟩
  | .gt => some ⟨7, false, .gt⟩
  | .ge => some ⟨7, false, .ge⟩
  | _ => none

/-- The `binops` list built from the keys of `opPrecedence` (Go map
iteration order is unspecified; only membership is consulted). -/
def binopsList : List TokTy :=
  [.plus, .minus, .star, .slash, .shl, .shr, .binAnd, .binOr,
   .logAnd, .logOr, .eq, .ne, .lt, .le, .gt, .ge]

/-- The starter token types of `parsePrimary`. -/
def starters : List TokTy :=
  [.number, .bool, .str, .ident, .lparen, .keyword]

/-- Work items of the fuel-indexed expression parser:
`parseExpressionPratt`, its operator loop, `parsePrimary`, and the
argument loop of `parseCall`. -/
inductive ETask where
  | pratt (optional : Bool) (minPrec : Nat)
  | prattLoop (lhs : Expr) (minPrec : Nat)
  | primary (optional : Bool)
  | callArgs (fnName : Name) (acc : List Arg) (next : Tok)

/-- The fuel-indexed expression parser.  Each case mirrors the
corresponding function of `parser.go`; results are the Go multi-return
`(expression-or-nil, new index, error-or-nil)`. -/
def parseGo (toks : List Tok) : Nat → ETask → Nat → Option Expr × Nat × Option PErr
  | 0, _, ix => (none, ix, some .fuel)
  | fuel + 1, t, ix =>
    match t with
    | .pratt opt minPrec =>
      -- parseExpressionPratt
      let (lhs, ix1, e) := parseGo toks fuel (.primary opt) ix
      match e, lhs with
      | some er, _ => (lhs, ix1, some er)
      | none, none => (none, ix1, none)
      | none, some l => parseGo toks fuel (.prattLoop l minPrec) ix1
    | .prattLoop lhs minPrec =>
      -- the operator loop of parseExpressionPratt
      let (peek, ix1, e) := peekType toks binopsList ix
      if e.isSome || !binopsList.contains peek.ty then (some lhs, ix1, none)
      else
        match opPrecedence peek.ty with
        | none => (some lhs, ix1, none)
        | some info =>
          if info.precedence < minPrec then (some lhs, ix1 - 1, none)
          else
            let nextMinPrec := if info.rightAssoc then info.precedence else info.precedence + 1
            let (rhs, ix2, e2) := parseGo toks fuel (.pratt false nextMinPrec) ix1
            match e2 with
            | some er => (none, ix2, some er)
            | none =>
              match rhs with
              | some r => parseGo toks fuel (.prattLoop (NewBinop info.kind lhs r) minPrec) ix2
              | none => (none, ix2, some .err) -- unreachable: non-optional parse returns nil only with an error
    | .primary opt =>
      -- parsePrimary
      let (start, ix1, e) := peekType toks starters ix
      match e with
      | some er => (none, ix1, some er)
      | none =>
        if !starters.contains start.ty then
          if opt then (none, ix1, none) else (none, ix1, some .err)
        else
          match start.ty with
          | .keyword =>
            match start.kw with
            | .kTrue => (some (NewBoolLiteral true), ix1, none)
            | .kFalse => (some (NewBoolLiteral false), ix1, none)
            | _ => (none, ix1, some .err)
          | .number => (some (NewIntLiteral start.numberVal), ix1, none)
          | .bool =>
            if start.kw == .kTrue then (some (NewBoolLiteral true), ix1, none)
            else if start.kw == .kFalse then (some (NewBoolLiteral false), ix1, none)
            else (none, ix1, some .panicked)
          | .str => (some (NewStringLiteral start.stringVal), ix1, none)
          | .ident =>
            let (next, ix2, _) := peekType toks [.lparen, .caret] ix1
            match next.ty with
            | .lparen => parseGo toks fuel (.callArgs start.stringVal [] zeroT) ix2
            | .caret => (some (NewDeref (NewVariableRef start.stringVal .unknown)), ix2, none)
            | _ => (some (NewVariableRef start.stringVal .unknown), ix2, none)
          | .lparen =>
            let (inner, ix2, er) := parseGo toks fuel (.pratt false 0) ix1
            match er with
            | some e2 => (none, ix2, some e2)
            | none =>
              let (_, ix3, er2) := expectType toks [.rparen] ix2
              match er2 with
              | some e2 => (none, ix3, some e2)
              | none =>
                match inner with
                | none => (none, ix3, some .err) -- unreachable: non-optional parse
                | some iv =>
                  let (nx, ix4, _) := peekType toks [.caret] ix3
                  if nx.ty == .caret then (some (NewDeref iv), ix4, none)
                  else (some iv, ix4, none)
          | _ => (none, ix1, some .panicked)
    | .callArgs fn acc next =>
      -- the argument loop of parseCall
      if next.ty == .rparen then (some (NewCall fn acc), ix, none)
      else
        let (e1, ix1, er) := parseGo toks fuel (.pratt true 0) ix
        match er with
        | some e2 => (none, ix1, some e2)
        | none =>
          match e1 with
          | some ex =>
            let (nt, ix2, er2) := expectType toks [.rparen, .comma] ix1
            match er2 with
            | some e2 => (none, ix2, some e2)
            | none => parseGo toks fuel (.callArgs fn (acc ++ [.mk ex none]) nt) ix2
          | none =>
            let (nt, ix2, er2) := expectType toks [.rparen] ix1
            match er2 with
            | some e2 => (none, ix2, some e2)
            | none => parseGo toks fuel (.callArgs fn acc nt) ix2

/-- An identifier token. -/
def identT (s : Name) : Tok := ⟨.ident, .kNone, s, 0⟩

/-- A number token. -/
def numT (n : Int) : Tok := ⟨.number, .kNone, [], n⟩

/-- An operator token. -/
def opT (ty : TokTy) : Tok := ⟨ty, .kNone, [], 0⟩

/-- Is the last instruction a `Return`?  (the type assertion at
`parser.go:232`). -/
def lastIsRet (instructions : List Instr) : Bool :=
  match instructions.getLast? with
  | some (.ret _) => true
  | _ => false

/-- The implicit-return logic of `parseFunc` (`parser.go:226-251`): if
the body does not end in a `Return`, a `void` function gets an empty
`Return` appended and any other function is a parse error. -/
def addImplicitReturn (instructions : List Instr) (retKind : TypeKind) :
    Except PErr (List Instr) :=
  let addRet := !lastIsRet instructions
  if addRet then
    match retKind with
    | .void => .ok (instructions ++ [.ret none])
    | _ => .error .err
  else .ok instructions

end Par

namespace Low

/-! ### Tag and prefix constants used in statements -/

/-- The `tmp` identifier prefix. -/
def tmpPre : Name := ['t','m','p']

/-- The `str` identifier prefix. -/
def strPre : Name := ['s','t','r']

/-- The `idx` identifier prefix. -/
def idxPre : Name := ['i','d','x']

/-- The label tag `block`. -/
def blockTag : Name := ['b','l','o','c','k']

/-- The label tag `true`. -/
def trueTag : Name := ['t','r','u','e']

/-- The label tag `false`. -/
def falseTag : Name := ['f','a','l','s','e']

/-- The label tag `end`. -/
def endTag : Name := ['e','n','d']

/-- The label tag `then`. -/
def thenTag : Name := ['t','h','e','n']

/-- The label tag `else`. -/
def elseTag : Name := ['e','l','s','e']

/-- The label tag `for`. -/
def forTag : Name := ['f','o','r']

/-- The label tag `body`. -/
def bodyTag : Name := ['b','o','d','y']

/-! ### Invariants on emitted instruction segments -/

/-- How many `Label` instructions of `Δ` decode to the counter value
`n`.  Additive over concatenation, which lets label-uniqueness facts
compose in any emission order. -/
def cntL (Δ : List IrInstr) (n : Nat) : Nat :=
  ((labelsOf Δ).filter (fun nm => labelNum nm = some n)).length

/-- The labels of `Δ` all decode, and each counter value is used by at
most one label, with every used value inside `S`. -/
def LabOK (S : Nat → Prop) (Δ : List IrInstr) : Prop :=
  (∀ nm ∈ labelsOf Δ, ∃ n, labelNum nm = some n) ∧
  (∀ n : Nat, cntL Δ n ≤ 1 ∧ (cntL Δ n = 0 ∨ S n))

/-- One lowering step relates the incoming and outgoing visitor state:
the label counter grows; the ret-label adjacency invariant is
preserved; and the appended segment has decodable, pairwise-distinct
labels drawn from the fresh counter range, with every jump target of
the segment among the segment's own labels. -/
def Stepped (s s' : VS) : Prop :=
  s.labelCounter ≤ s'.labelCounter ∧
  (retLabelChk s.instrs = true → retLabelChk s'.instrs = true) ∧
  ∃ Δ, s'.instrs = s.instrs ++ Δ ∧
    LabOK (fun n => s.labelCounter < n ∧ n ≤ s'.labelCounter) Δ ∧
    (∀ nm ∈ targetsOf Δ, nm ∈ labelsOf Δ)


/-! ### Properties of the rendered numeric suffixes -/

theorem digitsGo_acc :
    ∀ n fuel acc, n < fuel → digitsGo fuel n acc = digitsGo (n + 1) n [] ++ acc := by
  intro n
  induction n using Nat.strong_induction_on with
  | _ n ih =>
    intro fuel acc hf
    obtain ⟨m, rfl⟩ : ∃ m, fuel = m + 1 := ⟨fuel - 1, by omega⟩
    by_cases h10 : n < 10
    · simp [digitsGo, h10]
    · have hdiv : n / 10 < n := Nat.div_lt_self (by omega) (by omega)
      rw [show digitsGo (m + 1) n acc
            = digitsGo m (n / 10) (Char.ofNat (48 + n % 10) :: acc) from by
          simp [digitsGo, h10]]
      rw [ih (n / 10) hdiv m _ (by omega)]
      rw [show digitsGo (n + 1) n []
            = digitsGo n (n / 10) [Char.ofNat (48 + n % 10)] from by
          simp [digitsGo, h10]]
      rw [ih (n / 10) hdiv n _ (by omega)]
      simp

theorem natToDigits_ge (n : Nat) (h : ¬ n < 10) :
    natToDigits n = natToDigits (n / 10) ++ [Char.ofNat (48 + n % 10)] := by
  have hdiv : n / 10 < n := Nat.div_lt_self (by omega) (by omega)
  show digitsGo (n + 1) n [] = _
  rw [show digitsGo (n + 1) n []
        = digitsGo n (n / 10) [Char.ofNat (48 + n % 10)] from by
      simp [digitsGo, h]]
  rw [digitsGo_acc (n / 10) n _ hdiv]
  rfl

theorem natToDigits_lt (n : Nat) (h : n < 10) :
    natToDigits n = [Char.ofNat (48 + n)] := by
  simp [natToDigits, digitsGo, h]

theorem natToDigits_shape :
    ∀ n, ∀ c ∈ natToDigits n, ∃ k, k < 10 ∧ c = Char.ofNat (48 + k) := by
  intro n
  induction n using Nat.strong_induction_on with
  | _ n ih =>
    intro c hc
    by_cases h10 : n < 10
    · rw [natToDigits_lt n h10] at hc
      rw [List.mem_singleton] at hc
      exact ⟨n, h10, hc⟩
    · rw [natToDigits_ge n h10] at hc
      rcases List.mem_append.mp hc with h | h
      · exact ih (n / 10) (Nat.div_lt_self (by omega) (by omega)) c h
      · rw [List.mem_singleton] at h
        exact ⟨n % 10, Nat.mod_lt _ (by omega), h⟩

theorem isDigitCh_ofNat (k : Nat) (h : k < 10) :
    isDigitCh (Char.ofNat (48 + k)) = true := by
  interval_cases k <;> decide

theorem digitVal_ofNat (k : Nat) (h : k < 10) :
    digitVal (Char.ofNat (48 + k)) = k := by
  interval_cases k <;> decide

theorem natToDigits_isDigit (n : Nat) : ∀ c ∈ natToDigits n, isDigitCh c = true := by
  intro c hc
  obtain ⟨k, hk, rfl⟩ := natToDigits_shape n c hc
  exact isDigitCh_ofNat k hk

theorem pad4_isDigit (n : Nat) : ∀ c ∈ pad4 (natToDigits n), isDigitCh c = true := by
  intro c hc
  rcases List.mem_append.mp hc with h | h
  · rw [List.eq_of_mem_replicate h]
    decide
  · exact natToDigits_isDigit n c h

theorem parse_natToDigits :
    ∀ n a, (natToDigits n).foldl (fun x c => x * 10 + digitVal c) a =
      a * 10 ^ (natToDigits n).length + n := by
  intro n
  induction n using Nat.strong_induction_on with
  | _ n ih =>
    intro a
    by_cases h10 : n < 10
    · rw [natToDigits_lt n h10]
      simp [List.foldl, digitVal_ofNat n h10]
    · rw [natToDigits_ge n h10, List.foldl_append]
      rw [ih (n / 10) (Nat.div_lt_self (by omega) (by omega)) a]
      simp only [List.foldl, List.length_append, List.length_singleton,
        digitVal_ofNat (n % 10) (Nat.mod_lt _ (by omega))]
      rw [pow_succ]
      have := Nat.div_add_mod n 10
      ring_nf
      omega

theorem foldl_zeros (k : Nat) :
    (List.replicate k '0').foldl (fun x c => x * 10 + digitVal c) 0 = 0 := by
  induction k with
  | zero => rfl
  | succ k ih => simpa [List.replicate_succ, List.foldl] using ih

theorem parseDigits_pad4 (n : Nat) : parseDigits (pad4 (natToDigits n)) = n := by
  unfold parseDigits pad4
  rw [List.foldl_append, foldl_zeros]
  have := parse_natToDigits n 0
  simpa using this

theorem takeWhile_all_append (p : Char → Bool) :
    ∀ (xs : List Char) (y : Char) (ys : List Char),
      (∀ x ∈ xs, p x = true) → p y = false →
      List.takeWhile p (xs ++ y :: ys) = xs := by
  intro xs
  induction xs with
  | nil => intro y ys _ hy; simp [List.takeWhile_cons, hy]
  | cons a rest ih =>
    intro y ys hall hy
    have ha : p a = true := hall a (List.mem_cons_self _ _)
    rw [List.cons_append, List.takeWhile_cons_of_pos ha]
    rw [ih y ys (fun x hx => hall x (List.mem_cons_of_mem _ hx)) hy]

theorem dropWhile_all_append (p : Char → Bool) :
    ∀ (xs : List Char) (y : Char) (ys : List Char),
      (∀ x ∈ xs, p x = true) → p y = false →
      List.dropWhile p (xs ++ y :: ys) = y :: ys := by
  intro xs
  induction xs with
  | nil => intro y ys _ hy; simp [List.dropWhile_cons, hy]
  | cons a rest ih =>
    intro y ys hall hy
    have ha : p a = true := hall a (List.mem_cons_self _ _)
    rw [List.cons_append, List.dropWhile_cons_of_pos ha]
    exact ih y ys (fun x hx => hall x (List.mem_cons_of_mem _ hx)) hy

/-- Decoding a generated label recovers its counter value, for any tag. -/
theorem labelNum_mkLabel (n : Nat) (tag : Name) :
    labelNum (mkLabel n tag) = some n := by
  show some (((pad4 (natToDigits n) ++ '_' :: tag).takeWhile
    (fun c => isDigitCh c)).foldl (fun a c => a * 10 + digitVal c) 0) = some n
  rw [takeWhile_all_append _ (pad4 (natToDigits n)) '_' tag (pad4_isDigit n) (by decide)]
  exact congrArg some (parseDigits_pad4 n)

/-- Decoding a generated identifier recovers its counter value when the
prefix contains no underscore (true of `tmp`, `str` and `idx`). -/
theorem identNum_mkIdent (pre : Name) (n : Nat) (h : ∀ c ∈ pre, c ≠ '_') :
    identNum (mkIdent pre n) = some n := by
  rw [show identNum (mkIdent pre n)
        = (match List.dropWhile (fun c => decide (c ≠ '_'))
            (pre ++ '_' :: pad4 (natToDigits n)) with
           | '_' :: ds => some (parseDigits ds)
           | _ => none) from rfl]
  rw [dropWhile_all_append _ pre '_' (pad4 (natToDigits n))
    (fun x hx => by simpa using h x hx) (by simp)]
  exact congrArg some (parseDigits_pad4 n)

/-- Generated labels with different counter values are different names. -/
theorem mkLabel_ne_of_num_ne {n m : Nat} (t t' : Name) (h : n ≠ m) :
    mkLabel n t ≠ mkLabel m t' := by
  intro he
  have h1 := labelNum_mkLabel n t
  rw [he, labelNum_mkLabel] at h1
  exact h (Option.some.inj h1).symm

/-- Generated identifiers with underscore-free prefixes and different
counter values are different names. -/
theorem mkIdent_ne_of_num_ne {n m : Nat} {p q : Name}
    (hp : ∀ c ∈ p, c ≠ '_') (hq : ∀ c ∈ q, c ≠ '_') (h : n ≠ m) :
    mkIdent p n ≠ mkIdent q m := by
  intro he
  have h1 := identNum_mkIdent p n hp
  rw [he, identNum_mkIdent q m hq] at h1
  exact h (Option.some.inj h1).symm

end Low

namespace Low

/-! ### Claims C1, C2, C10 -/

/-- C1 (counterexample).  The claim says every SSA local — explicitly
including the shared `result` temporary of short-circuit lowering — is
the destination of exactly one instruction.  Lowering
`b := true && false` emits `Binop(Add, result, left, 0)` in the false
arm and `Binop(Add, result, right, 0)` in the true arm, so the result
temporary `_tmp_0001` is the destination of two instructions, not one. -/
theorem c1_counterexample :
    (lowBodies 64 scAndUnit).map (fun b => countDest b (mkIdent tmpPre 1)) = [2] := by
  decide

/-- C1 (amended).  SSA single-assignment does not hold in the produced
IR: the shared result temporary of a short-circuit lowering is the
destination of exactly two instructions (one per arm) while the moved
variable is assigned once per assignment statement, so a variable
assigned twice in the source is the destination of two move
instructions. -/
theorem c1_amended :
    (lowBodies 64 scAndUnit).map
      (fun b => (countDest b (mkIdent tmpPre 1), countDest b ['b'])) = [(2, 1)] ∧
    (lowBodies 64 dblAssignUnit).map (fun b => countDest b ['x']) = [2] := by
  constructor <;> decide

/-- C2 (counterexample).  The claim says both counters reset at each
function boundary, so generated `_tmp_NNNN` names number from 1 in
every function.  Lowering two identical functions shows the second
function's only generated temporary is `_tmp_0002`, not `_tmp_0001`:
the shared `tmpCounter` is not reset by `VisitFuncDef`. -/
theorem c2_counterexample :
    (lowBodies 64 twoFnUnit).map
      (fun b => (countDest b (mkIdent tmpPre 1), countDest b (mkIdent tmpPre 2)))
      = [(1, 0), (0, 1)] := by
  decide

/-- C2 (amended).  Only the label counter (and the pending instruction
list) is reset at a function boundary: lowering a function is
insensitive to the incoming label counter and instruction list (first
conjunct, both are overwritten on entry), and label numbering restarts
at 1 in every function (second conjunct: both functions of
`twoFnUnit` contain `L0001_then` exactly once) — but the
temporary/string/index counter carries across functions (third
conjunct, as in the counterexample). -/
theorem c2_amended :
    (∀ (fuel : Nat) (fd : AstFuncDef) (dd : List DataDef) (fds : List IrFuncDef)
       (ins ins' : List IrInstr) (tc lc lc' : Nat) (lv : Option Val) (lt : Option AstType),
       lowerFuncDef fuel fd ⟨dd, fds, ins, tc, lc, lv, lt⟩
         = lowerFuncDef fuel fd ⟨dd, fds, ins', tc, lc', lv, lt⟩) ∧
    (lowBodies 64 twoFnUnit).map
      (fun b => (labelsOf b).count (mkLabel 1 ['t','h','e','n'])) = [1, 1] ∧
    (lowBodies 64 twoFnUnit).map
      (fun b => (countDest b (mkIdent tmpPre 1), countDest b (mkIdent tmpPre 2)))
      = [(1, 0), (0, 1)] := by
  refine ⟨fun fuel fd dd fds ins ins' tc lc lc' lv lt => rfl, by decide, by decide⟩

/-- Underscore-freeness of the three generated-identifier prefixes. -/
theorem pre_no_underscore (p : Name) (h : p = tmpPre ∨ p = strPre ∨ p = idxPre) :
    ∀ c ∈ p, c ≠ '_' := by
  rcases h with rfl | rfl | rfl <;> decide

/-- C10: `nextIdent` draws every prefix from the one shared counter. -/
theorem nextIdents_spec :
    ∀ (pres : List Name) (s : VS),
      (nextIdents pres s).2.tmpCounter = s.tmpCounter + pres.length ∧
      (nextIdents pres s).1 =
        (pres.zip (List.range' (s.tmpCounter + 1) pres.length)).map
          (fun pn => mkIdent pn.1 pn.2) := by
  intro pres
  induction pres with
  | nil => intro s; simp [nextIdents]
  | cons p rest ih =>
    intro s
    have h1 := (ih { s with tmpCounter := s.tmpCounter + 1 }).1
    have h2 := (ih { s with tmpCounter := s.tmpCounter + 1 }).2
    constructor
    · show (nextIdents rest { s with tmpCounter := s.tmpCounter + 1 }).2.tmpCounter = _
      rw [h1]
      simp [List.length_cons]
      omega
    · show mkIdent p (s.tmpCounter + 1)
          :: (nextIdents rest { s with tmpCounter := s.tmpCounter + 1 }).1 = _
      rw [h2]
      simp [List.range'_succ]

/-- Distinctness of a run of generated identifiers: mapping `mkIdent`
over prefixes zipped with consecutive numbers yields pairwise distinct
names when the prefixes are underscore-free. -/
theorem pairwise_mkIdent_zip :
    ∀ (pres : List Name) (k : Nat),
      (∀ p ∈ pres, p = tmpPre ∨ p = strPre ∨ p = idxPre) →
      (((pres.zip (List.range' k pres.length)).map
        (fun pn => mkIdent pn.1 pn.2)).Pairwise (· ≠ ·)) := by
  intro pres
  induction pres with
  | nil => intro k _; simp
  | cons p rest ih =>
    intro k hall
    rw [List.length_cons, List.range'_succ]
    simp only [List.zip_cons_cons, List.map_cons]
    constructor
    · intro nm hnm
      rw [List.mem_map] at hnm
      obtain ⟨⟨q, j⟩, hqj, rfl⟩ := hnm
      have hq := (List.of_mem_zip hqj).1
      have hj := (List.of_mem_zip hqj).2
      rw [List.mem_range'_1] at hj
      exact mkIdent_ne_of_num_ne
        (pre_no_underscore p (hall p (List.mem_cons_self _ _)))
        (pre_no_underscore q (hall q (List.mem_cons_of_mem _ hq)))
        (by omega)
    · exact ih (k + 1) (fun q hq => hall q (List.mem_cons_of_mem _ hq))

/-- C10.  All three generated-identifier kinds (`_tmp_`, `_str_`,
`_idx_`) draw their numeric suffix from the one shared counter: a run
of `nextIdent` calls with any mix of the three prefixes produces
exactly the names numbered consecutively from the incoming counter
plus one (first conjunct), so the numbers form a single strictly
increasing sequence and no number is ever shared by two generated
names (second conjunct).  Concretely, lowering a call whose first
argument is a string literal interns `_str_0001` and binds the call
result to `_tmp_0002` (third conjunct). -/
theorem c10_shared_counter :
    (∀ (pres : List Name) (s : VS),
      (nextIdents pres s).2.tmpCounter = s.tmpCounter + pres.length ∧
      (nextIdents pres s).1 =
        (pres.zip (List.range' (s.tmpCounter + 1) pres.length)).map
          (fun pn => mkIdent pn.1 pn.2)) ∧
    (∀ (pres : List Name) (s : VS),
      (∀ p ∈ pres, p = tmpPre ∨ p = strPre ∨ p = idxPre) →
      ((nextIdents pres s).1).Pairwise (· ≠ ·)) ∧
    ((match lowerUnit 64 callStrUnit with
      | .ok u => u.dataDefs.map DataDef.ident
      | .error _ => []) = [mkIdent strPre 1] ∧
     (lowBodies 64 callStrUnit).map callRets = [[some (mkIdent tmpPre 2, .word)]]) := by
  refine ⟨nextIdents_spec, ?_, by decide, by decide⟩
  intro pres s hall
  rw [(nextIdents_spec pres s).2]
  exact pairwise_mkIdent_zip pres (s.tmpCounter + 1) hall

end Low

namespace Lex

/-! ### Claims C3 and C9 -/

/-- C3 (counterexample).  The claim says `Tokens()` returns an error
when a string literal is still open at end of input.  On the input
`"abc` (an unterminated string), the scanner's `io.EOF` raised inside
the string loop is treated by `Tokens` as normal end of input, so it
returns an empty token list and **no** error. -/
theorem c3_counterexample : Tokens (bytes "\"abc") = .ok [] := by decide

/-- C3 (amended).  Of the three error conditions the claim lists, only
numeric overflow makes `Tokens()` fail (first conjunct,
`strconv.Atoi` range error on a 20-digit literal).  An unterminated
string at end of input is silently swallowed — the `io.EOF` from the
scanner ends tokenization successfully and the partial string is
dropped (second conjunct) — and a byte matching no tokenizer case
(here `#`) is silently skipped rather than reported (third
conjunct). -/
theorem c3_amended :
    Tokens (bytes "99999999999999999999 ") = .error .atoi ∧
    Tokens (bytes "\"abc") = .ok [] ∧
    (Tokens (bytes "#1 ")).map (List.map (fun t => (t.ty, t.numberVal)))
      = .ok [(.number, 1)] := by
  refine ⟨by decide, by decide, by decide⟩

/-- C9 (counterexample).  The claim says a leading `-` is folded into a
following numeral only when the previous token cannot be a left
operand of binary `-`.  On `1-2 ` the token before the `-` is the
number `1` — a value that can be a left operand — yet the tokenizer
still folds, producing `Number(1), Number(-2)` (there is no minus
token type at all in this tokenizer). -/
theorem c9_counterexample :
    (Tokens (bytes "1-2 ")).map (List.map (fun t => (t.ty, t.numberVal)))
      = .ok [(.number, 1), (.number, -2)] := by
  decide

/-- C9 (amended).  The fold is unconditional: whenever `-` is
immediately followed by a decimal digit, the digit run is tokenized as
a single negative number regardless of what preceded (first conjunct,
for every digit).  When the `-` is not followed by `>` or a digit it
produces no token at all — it is silently dropped, as on `1- 2 `
(second conjunct). -/
theorem c9_amended :
    (∀ d : Fin 10,
      (Tokens [49, 45, 48 + d.val, 32]).map (List.map (fun t => (t.ty, t.numberVal)))
        = .ok [(.number, 1), (.number, -(d.val : Int))]) ∧
    (Tokens (bytes "1- 2 ")).map (List.map (fun t => (t.ty, t.numberVal)))
      = .ok [(.number, 1), (.number, 2)] := by
  refine ⟨by decide, by decide⟩

end Lex

namespace Par

open Low (Name Expr Arg Instr TypeKind AstBinOp AstType)

/-! ### Claims C7 and C8 -/

/-- C7.  The Pratt parser uses exactly the claimed precedence table
with every operator left-associative (first conjunct: the sixteen
table entries, each with `rightAssoc = false`), operators chain
left-associatively — for all identifiers `a`, `b`, `c`, the tokens of
`a - b - c` parse to `(a - b) - c` (second conjunct) — and shifts bind
tighter than addition: for all numbers `x`, `y`, `z`, the tokens of
`x + y << z` parse to `x + (y << z)` (third conjunct). -/
theorem c7_precedence :
    (opPrecedence .logOr = some ⟨3, false, .logOr⟩ ∧
     opPrecedence .logAnd = some ⟨4, false, .logAnd⟩ ∧
     opPrecedence .eq = some ⟨5, false, .eq⟩ ∧
     opPrecedence .ne = some ⟨5, false, .ne⟩ ∧
     opPrecedence .binOr = some ⟨6, false, .or⟩ ∧
     opPrecedence .lt = some ⟨7, false, .lt⟩ ∧
     opPrecedence .le = some ⟨7, false, .le⟩ ∧
     opPrecedence .gt = some ⟨7, false, .gt⟩ ∧
     opPrecedence .ge = some ⟨7, false, .ge⟩ ∧
     opPrecedence .binAnd = some ⟨8, false, .and⟩ ∧
     opPrecedence .plus = some ⟨10, false, .add⟩ ∧
     opPrecedence .minus = some ⟨10, false, .sub⟩ ∧
     opPrecedence .shl = some ⟨15, false, .shl⟩ ∧
     opPrecedence .shr = some ⟨15, false, .shr⟩ ∧
     opPrecedence .star = some ⟨20, false, .mul⟩ ∧
     opPrecedence .slash = some ⟨20, false, .div⟩) ∧
    (∀ a b c : Low.Name,
      parseGo [identT a, opT .minus, identT b, opT .minus, identT c] 32 (.pratt false 0) 0 =
        (some (NewBinop .sub (NewBinop .sub (NewVariableRef a .unknown)
          (NewVariableRef b .unknown)) (NewVariableRef c .unknown)), 5, none)) ∧
    (∀ x y z : Int,
      parseGo [numT x, opT .plus, numT y, opT .shl, numT z] 32 (.pratt false 0) 0 =
        (some (NewBinop .add (NewIntLiteral x)
          (NewBinop .shl (NewIntLiteral y) (NewIntLiteral z))), 5, none)) := by
  refine ⟨by decide, fun a b c => rfl, fun x y z => rfl⟩

/-- C8.  The implicit-return logic of `parseFunc`: when the body's last
instruction is not a `Return`, a function with declared return type
`Void` gets an empty `Return` appended (first conjunct), and a
function with any other declared return type is a parse error (second
conjunct); a body already ending in `Return` is left unchanged (third
conjunct). -/
theorem c8_implicit_return :
    ∀ (instructions : List Instr) (retKind : TypeKind),
      (lastIsRet instructions = false → retKind = .void →
        addImplicitReturn instructions retKind = .ok (instructions ++ [.ret none])) ∧
      (lastIsRet instructions = false → retKind ≠ .void →
        addImplicitReturn instructions retKind = .error .err) ∧
      (lastIsRet instructions = true →
        addImplicitReturn instructions retKind = .ok instructions) := by
  intro instructions retKind
  refine ⟨?_, ?_, ?_⟩
  · intro h1 h2
    subst h2
    simp [addImplicitReturn, h1]
  · intro h1 h2
    cases retKind <;> simp [addImplicitReturn, h1] <;> simp at h2
  · intro h1
    simp [addImplicitReturn, h1]

/-- Witness for C8 at concrete inputs: an empty `void` body gets the
implicit return, and an empty `int` body is rejected. -/
theorem c8_witness :
    addImplicitReturn [] .void = .ok [.ret none] ∧
    addImplicitReturn [] .int = .error .err :=
  ⟨(c8_implicit_return [] .void).1 (by decide) rfl,
   (c8_implicit_return [] .int).2.1 (by decide) (by decide)⟩

end Par

namespace Low

/-! ### Lemmas about `appendInstr` and instruction segments -/

theorem endsRet_concat (l : List IrInstr) (i : IrInstr) :
    endsRet (l ++ [i]) = isRet i := by
  simp [endsRet, List.getLast?_concat]

theorem endsRet_append_cons (l : List IrInstr) (a : IrInstr) (rest : List IrInstr) :
    endsRet (l ++ a :: rest) = endsRet (a :: rest) := by
  unfold endsRet
  rw [List.getLast?_append_cons]

theorem endsRet_cons_cons (a b : IrInstr) (l : List IrInstr) :
    endsRet (a :: b :: l) = endsRet (b :: l) := by
  simp [endsRet, List.getLast?_cons_cons]

theorem endsRet_single (a : IrInstr) : endsRet [a] = isRet a := by
  simp [endsRet]

theorem appendInstr_label (nm : Name) (s : VS) :
    appendInstr (.label nm) s = { s with instrs := s.instrs ++ [.label nm] } := by
  simp [appendInstr, isLabel]

theorem appendInstr_not_ret (i : IrInstr) (s : VS) (h : endsRet s.instrs = false) :
    appendInstr i s = { s with instrs := s.instrs ++ [i] } := by
  unfold appendInstr
  by_cases hi : isLabel i
  · simp [hi]
  · simp only [hi, if_neg, Bool.false_eq_true, ite_false]
    unfold endsRet at h
    match hl : s.instrs.getLast? with
    | none => simp
    | some last =>
      rw [hl] at h
      have h' : isRet last = false := h
      simp [h']

theorem appendInstr_ret (i : IrInstr) (s : VS) (hi : isLabel i = false)
    (h : endsRet s.instrs = true) :
    appendInstr i s =
      { s with instrs := s.instrs ++ [.label (mkLabel (s.labelCounter + 1) blockTag), i],
               labelCounter := s.labelCounter + 1 } := by
  unfold appendInstr
  unfold endsRet at h
  match hl : s.instrs.getLast? with
  | none => rw [hl] at h; simp at h
  | some last =>
    rw [hl] at h
    have h' : isRet last = true := h
    simp [hi, h', nextLabel, blockTag]

theorem appendInstr_endsRet (i : IrInstr) (s : VS) :
    endsRet (appendInstr i s).instrs = isRet i := by
  by_cases hi : isLabel i
  · cases i <;> simp_all [appendInstr_label, endsRet_concat, isLabel, isRet]
  · rcases h : endsRet s.instrs with _ | _
    · rw [appendInstr_not_ret i s h]
      simp [endsRet_concat]
    · rw [appendInstr_ret i s (by simpa using hi) h]
      show endsRet (s.instrs ++ [.label _, i]) = isRet i
      rw [show s.instrs ++ [.label (mkLabel (s.labelCounter + 1) blockTag), i]
            = (s.instrs ++ [.label (mkLabel (s.labelCounter + 1) blockTag)]) ++ [i] by
          simp]
      exact endsRet_concat _ i

theorem retLabelChk_concat :
    ∀ (l : List IrInstr) (i : IrInstr),
      retLabelChk (l ++ [i]) = (retLabelChk l && (!endsRet l || isLabel i)) := by
  intro l
  induction l with
  | nil => intro i; simp [retLabelChk, endsRet]
  | cons a tail ih =>
    intro i
    cases tail with
    | nil => simp [retLabelChk, endsRet]
    | cons b rest =>
      rw [show (a :: b :: rest) ++ [i] = a :: ((b :: rest) ++ [i]) from rfl]
      rw [show retLabelChk (a :: (b :: rest ++ [i]))
            = ((!isRet a || isLabel b) && retLabelChk (b :: rest ++ [i])) from rfl]
      rw [ih i]
      rw [show retLabelChk (a :: b :: rest)
            = ((!isRet a || isLabel b) && retLabelChk (b :: rest)) from rfl]
      rw [show endsRet (a :: b :: rest) = endsRet (b :: rest) by
        simp [endsRet, List.getLast?_cons_cons]]
      cases (!isRet a || isLabel b) <;> cases retLabelChk (b :: rest) <;> simp

theorem appendInstr_retLabelChk (i : IrInstr) (s : VS)
    (h : retLabelChk s.instrs = true) :
    retLabelChk (appendInstr i s).instrs = true := by
  by_cases hi : isLabel i
  · have : ∃ nm, i = .label nm := by cases i <;> simp_all [isLabel]
    obtain ⟨nm, rfl⟩ := this
    rw [appendInstr_label]
    show retLabelChk (s.instrs ++ [.label nm]) = true
    rw [retLabelChk_concat, h]
    simp [isLabel]
  · rcases hr : endsRet s.instrs with _ | _
    · rw [appendInstr_not_ret i s hr]
      show retLabelChk (s.instrs ++ [i]) = true
      rw [retLabelChk_concat, h, hr]
      simp
    · rw [appendInstr_ret i s (by simpa using hi) hr]
      show retLabelChk (s.instrs ++ [.label _, i]) = true
      rw [show s.instrs ++ [.label (mkLabel (s.labelCounter + 1) blockTag), i]
            = (s.instrs ++ [.label (mkLabel (s.labelCounter + 1) blockTag)]) ++ [i] by
          simp]
      rw [retLabelChk_concat, retLabelChk_concat, h, endsRet_concat]
      simp [isLabel, isRet]

/-! ### Lemmas about `labelsOf` and `targetsOf` -/

theorem labelsOf_append (l1 l2 : List IrInstr) :
    labelsOf (l1 ++ l2) = labelsOf l1 ++ labelsOf l2 :=
  List.filterMap_append _ _ _

theorem targetsOf_append (l1 l2 : List IrInstr) :
    targetsOf (l1 ++ l2) = targetsOf l1 ++ targetsOf l2 :=
  List.flatMap_append l1 l2 targetsOfI

theorem labelsOf_single_label (nm : Name) : labelsOf [.label nm] = [nm] := rfl

theorem labelsOf_single_nonlabel (i : IrInstr) (hi : isLabel i = false) :
    labelsOf [i] = [] := by
  cases i <;> simp_all [labelsOf, isLabel, List.filterMap]

theorem targetsOf_single (i : IrInstr) : targetsOf [i] = targetsOfI i := by
  simp [targetsOf]

end Low


namespace Low

/-! ### Reasoning helpers for the `Except` binds of the lowering -/

theorem bind_ok_l {α β : Type} (a : α) (f : α → Except LErr β) :
    (Bind.bind (Except.ok a) f : Except LErr β) = f a := rfl

theorem bind_err_l {α β : Type} (e : LErr) (f : α → Except LErr β) :
    (Bind.bind (Except.error e) f : Except LErr β) = Except.error e := rfl

theorem exists_of_bind_ok {α β : Type} {x : Except LErr α} {f : α → Except LErr β} {b : β}
    (h : (Bind.bind x f : Except LErr β) = .ok b) : ∃ a, x = .ok a ∧ f a = .ok b := by
  cases x with
  | error e => rw [bind_err_l] at h; cases h
  | ok a => rw [bind_ok_l] at h; exact ⟨a, rfl, h⟩

/-- Expression and argument-list lowering never leaves the pending
instruction list ending in a `Ret`: expressions emit no `Ret`, and
every emitted instruction lands at the end of the list. -/
theorem expr_not_endsRet :
    ∀ fuel : Nat,
      (∀ (e : Expr) (s : VS) (out : LowOut),
        lowerGo fuel (.expr e) s = .ok out →
        endsRet s.instrs = false → endsRet out.st.instrs = false) ∧
      (∀ (l : List Arg) (s : VS) (out : LowOut),
        lowerGo fuel (.args l) s = .ok out →
        endsRet s.instrs = false → endsRet out.st.instrs = false) := by
  intro fuel
  induction fuel with
  | zero =>
    constructor <;> (intro x s out h _; simp [lowerGo] at h)
  | succ fuel ih =>
    constructor
    · intro e s out h hs
      cases e with
      | literal ty i b sv =>
        cases ty with
        | none => simp [lowerGo] at h
        | some tt =>
          cases tt with
          | mk k elem =>
            cases k
            case int =>
              simp only [lowerGo, AstType.kind] at h
              injection h with h'
              rw [← h']
              exact hs
            case bool =>
              simp only [lowerGo, AstType.kind] at h
              injection h with h'
              rw [← h']
              exact hs
            case string =>
              simp only [lowerGo, AstType.kind, nextIdent] at h
              injection h with h'
              rw [← h']
              exact hs
            all_goals (simp only [lowerGo, AstType.kind] at h; simp at h)
      | variableRef x ty =>
        simp only [lowerGo] at h
        injection h with h'
        rw [← h']
        exact hs
      | deref e1 ty =>
        simp only [lowerGo] at h
        obtain ⟨r1, h1, h⟩ := exists_of_bind_ok h
        simp only [nextIdent] at h
        injection h with h'
        rw [← h']
        show endsRet (appendInstr _ _).instrs = false
        rw [appendInstr_endsRet]
        rfl
      | binop op l r ty =>
        cases op
        case logAnd =>
          simp only [lowerGo] at h
          obtain ⟨r1, h1, h⟩ := exists_of_bind_ok h
          simp only [nextIdent, nextLabel] at h
          obtain ⟨r2, h2, h⟩ := exists_of_bind_ok h
          injection h with h'
          rw [← h']
          show endsRet (appendInstr _ _).instrs = false
          rw [appendInstr_endsRet]
          rfl
        case logOr =>
          simp only [lowerGo] at h
          obtain ⟨r1, h1, h⟩ := exists_of_bind_ok h
          simp only [nextIdent, nextLabel] at h
          obtain ⟨r2, h2, h⟩ := exists_of_bind_ok h
          injection h with h'
          rw [← h']
          show endsRet (appendInstr _ _).instrs = false
          rw [appendInstr_endsRet]
          rfl
        all_goals
          (simp only [lowerGo] at h
           obtain ⟨r1, h1, h⟩ := exists_of_bind_ok h
           obtain ⟨r2, h2, h⟩ := exists_of_bind_ok h
           simp only [nextIdent] at h
           split at h <;>
             (injection h with h'
              rw [← h']
              show endsRet (appendInstr _ _).instrs = false
              rw [appendInstr_endsRet]
              rfl))
      | call ident args ty =>
        simp only [lowerGo] at h
        obtain ⟨ra, h1, h⟩ := exists_of_bind_ok h
        simp only [nextIdent] at h
        injection h with h'
        rw [← h']
        show endsRet (appendInstr _ _).instrs = false
        rw [appendInstr_endsRet]
        rfl
    · intro l s out h hs
      cases l with
      | nil =>
        simp only [lowerGo] at h
        injection h with h'
        rw [← h']
        exact hs
      | cons a rest =>
        simp only [lowerGo] at h
        obtain ⟨r1, h1, h⟩ := exists_of_bind_ok h
        obtain ⟨r2, h2, h⟩ := exists_of_bind_ok h
        injection h with h'
        rw [← h']
        exact (ih.2) rest r1.st r2 h2
          ((ih.1) a.value { s with lastVal := none } r1 h1 hs)

end Low

namespace Low

/-- C6.  Shape of short-circuit lowering.  For `&&` (first conjunct):
after lowering the left operand, the visitor allocates one fresh
result temporary and three fresh labels (`true`, `false`, `end`), and
emits, in order, `Jnz(left, T, F)`; `Label(F)`; a move
`Binop(Add, result, left, 0)`; `Jmp(E)`; `Label(T)`; then lowers the
right operand from exactly that state; then emits the move
`Binop(Add, result, right, 0)` and `Label(E)`, and the expression's
value is `result`.  For `||` (second conjunct) the same shape with the
`T`/`F` roles swapped: the left value is moved under the true label
and the right operand is lowered under the false label.  (The incoming
state must not end in `Ret`, otherwise `appendInstruction` would
prepend a synthetic block label.) -/
theorem c6_short_circuit :
    (∀ (fuel : Nat) (l r : Expr) (ty : Option AstType) (s : VS) (out : LowOut),
      endsRet s.instrs = false →
      lowerGo (fuel + 1) (.expr (.binop .logAnd l r ty)) s = .ok out →
      ∃ st2 r1 r2,
        lowerGo fuel (.expr l) { s with lastVal := none, lastType := none } = .ok r1 ∧
        st2.instrs = r1.st.instrs ++
          [.jnz r1.st.lastVal (mkLabel (r1.st.labelCounter + 1) trueTag)
              (mkLabel (r1.st.labelCounter + 2) falseTag),
           .label (mkLabel (r1.st.labelCounter + 2) falseTag),
           .binop .add (some (.ident (mkIdent tmpPre (r1.st.tmpCounter + 1)))) r1.st.lastVal
             (some (.int 0)),
           .jmp (mkLabel (r1.st.labelCounter + 3) endTag),
           .label (mkLabel (r1.st.labelCounter + 1) trueTag)] ∧
        st2.tmpCounter = r1.st.tmpCounter + 1 ∧
        st2.labelCounter = r1.st.labelCounter + 3 ∧
        lowerGo fuel (.expr r) st2 = .ok r2 ∧
        out.st.instrs = r2.st.instrs ++
          [.binop .add (some (.ident (mkIdent tmpPre (r1.st.tmpCounter + 1)))) r2.st.lastVal
            (some (.int 0)),
           .label (mkLabel (r1.st.labelCounter + 3) endTag)] ∧
        out.st.lastVal = some (.ident (mkIdent tmpPre (r1.st.tmpCounter + 1)))) ∧
    (∀ (fuel : Nat) (l r : Expr) (ty : Option AstType) (s : VS) (out : LowOut),
      endsRet s.instrs = false →
      lowerGo (fuel + 1) (.expr (.binop .logOr l r ty)) s = .ok out →
      ∃ st2 r1 r2,
        lowerGo fuel (.expr l) { s with lastVal := none, lastType := none } = .ok r1 ∧
        st2.instrs = r1.st.instrs ++
          [.jnz r1.st.lastVal (mkLabel (r1.st.labelCounter + 1) trueTag)
              (mkLabel (r1.st.labelCounter + 2) falseTag),
           .label (mkLabel (r1.st.labelCounter + 1) trueTag),
           .binop .add (some (.ident (mkIdent tmpPre (r1.st.tmpCounter + 1)))) r1.st.lastVal
             (some (.int 0)),
           .jmp (mkLabel (r1.st.labelCounter + 3) endTag),
           .label (mkLabel (r1.st.labelCounter + 2) falseTag)] ∧
        st2.tmpCounter = r1.st.tmpCounter + 1 ∧
        st2.labelCounter = r1.st.labelCounter + 3 ∧
        lowerGo fuel (.expr r) st2 = .ok r2 ∧
        out.st.instrs = r2.st.instrs ++
          [.binop .add (some (.ident (mkIdent tmpPre (r1.st.tmpCounter + 1)))) r2.st.lastVal
            (some (.int 0)),
           .label (mkLabel (r1.st.labelCounter + 3) endTag)] ∧
        out.st.lastVal = some (.ident (mkIdent tmpPre (r1.st.tmpCounter + 1)))) := by
  constructor
  all_goals
    intro fuel l r ty s out hends h
    simp only [lowerGo] at h
    obtain ⟨r1, h1, h⟩ := exists_of_bind_ok h
    have hr1e : endsRet r1.st.instrs = false :=
      (expr_not_endsRet fuel).1 l _ r1 h1 hends
    obtain ⟨r2, h2, h⟩ := exists_of_bind_ok h
    refine ⟨_, r1, r2, h1, ?_, ?_, ?_, h2, ?_, ?_⟩
    case _ =>
      simp [nextIdent, nextLabel, appendInstr_not_ret, appendInstr_endsRet,
        endsRet_append_cons, endsRet_cons_cons, endsRet_single, endsRet_concat, isRet, hr1e,
        List.append_assoc, tmpPre, trueTag, falseTag, endTag]
    case _ =>
      simp [nextIdent, nextLabel, appendInstr_not_ret, appendInstr_endsRet,
        endsRet_append_cons, endsRet_cons_cons, endsRet_single, endsRet_concat, isRet, hr1e]
    case _ =>
      simp [nextIdent, nextLabel, appendInstr_not_ret, appendInstr_endsRet,
        endsRet_append_cons, endsRet_cons_cons, endsRet_single, endsRet_concat, isRet, hr1e]
    case _ =>
      have hr2e : endsRet r2.st.instrs = false := by
        refine (expr_not_endsRet fuel).1 r _ r2 h2 ?_
        simp [nextIdent, nextLabel, appendInstr_not_ret, appendInstr_endsRet,
          endsRet_append_cons, endsRet_cons_cons, endsRet_single, endsRet_concat, isRet, hr1e]
      injection h with h'
      rw [← h']
      simp [appendInstr_not_ret, appendInstr_endsRet, endsRet_append_cons, endsRet_cons_cons,
        endsRet_single, endsRet_concat, isRet, hr2e, List.append_assoc, nextIdent, nextLabel,
        tmpPre, trueTag, falseTag, endTag]
    case _ =>
      injection h with h'
      rw [← h']
      simp [nextIdent, tmpPre]

/-- Witness for C6 at a concrete input: lowering
`true && false` from the initial state exhibits the claimed shape. -/
theorem c6_witness :
    ∃ out st2 r1 r2,
      lowerGo 9 (.expr (.binop .logAnd (litB true) (litB false) boolTy)) initVS = .ok out ∧
      (lowerGo 8 (.expr (litB true)) { initVS with lastVal := none, lastType := none } = .ok r1 ∧
       st2.instrs = r1.st.instrs ++
         [.jnz r1.st.lastVal (mkLabel (r1.st.labelCounter + 1) trueTag)
             (mkLabel (r1.st.labelCounter + 2) falseTag),
          .label (mkLabel (r1.st.labelCounter + 2) falseTag),
          .binop .add (some (.ident (mkIdent tmpPre (r1.st.tmpCounter + 1)))) r1.st.lastVal
            (some (.int 0)),
          .jmp (mkLabel (r1.st.labelCounter + 3) endTag),
          .label (mkLabel (r1.st.labelCounter + 1) trueTag)] ∧
       st2.tmpCounter = r1.st.tmpCounter + 1 ∧
       st2.labelCounter = r1.st.labelCounter + 3 ∧
       lowerGo 8 (.expr (litB false)) st2 = .ok r2 ∧
       out.st.instrs = r2.st.instrs ++
         [.binop .add (some (.ident (mkIdent tmpPre (r1.st.tmpCounter + 1)))) r2.st.lastVal
           (some (.int 0)),
          .label (mkLabel (r1.st.labelCounter + 3) endTag)] ∧
       out.st.lastVal = some (.ident (mkIdent tmpPre (r1.st.tmpCounter + 1)))) := by
  cases hE : lowerGo 9 (.expr (.binop .logAnd (litB true) (litB false) boolTy)) initVS with
  | error e =>
    have h3 : (lowerGo 9 (.expr (.binop .logAnd (litB true) (litB false) boolTy))
        initVS).toOption.isSome = true := by decide
    rw [hE] at h3
    simp [Except.toOption] at h3
  | ok out =>
    obtain ⟨st2, r1, r2, hh⟩ :=
      c6_short_circuit.1 8 (litB true) (litB false) boolTy initVS out (by decide) hE
    exact ⟨out, st2, r1, r2, rfl, hh⟩

end Low

namespace Low

/-! ### Lemmas about `cntL`, `LabOK` and `Stepped` -/

theorem cntL_append (Δ₁ Δ₂ : List IrInstr) (n : Nat) :
    cntL (Δ₁ ++ Δ₂) n = cntL Δ₁ n + cntL Δ₂ n := by
  simp [cntL, labelsOf_append, List.filter_append]

theorem cntL_nil (n : Nat) : cntL [] n = 0 := rfl

theorem cntL_single_nonlabel (i : IrInstr) (hi : isLabel i = false) (n : Nat) :
    cntL [i] n = 0 := by
  simp [cntL, labelsOf_single_nonlabel i hi]

theorem cntL_single_label (k n : Nat) (tag : Name) :
    cntL [.label (mkLabel k tag)] n = if k = n then 1 else 0 := by
  simp only [cntL, labelsOf_single_label]
  by_cases h : k = n
  · subst h
    rw [List.filter_cons_of_pos (by simp [labelNum_mkLabel])]
    simp
  · rw [List.filter_cons_of_neg (by simp [labelNum_mkLabel, h])]
    simp [h]

theorem LabOK.nil (S : Nat → Prop) : LabOK S [] := by
  refine ⟨fun nm hnm => ?_, fun n => by simp [cntL_nil]⟩
  simp [labelsOf] at hnm

theorem LabOK.mono {S T : Nat → Prop} {Δ : List IrInstr}
    (hST : ∀ n, S n → T n) (h : LabOK S Δ) : LabOK T Δ := by
  refine ⟨h.1, fun n => ⟨(h.2 n).1, ?_⟩⟩
  rcases (h.2 n).2 with h0 | hs
  · exact Or.inl h0
  · exact Or.inr (hST n hs)

theorem LabOK.join {S₁ S₂ : Nat → Prop} {Δ₁ Δ₂ : List IrInstr}
    (h1 : LabOK S₁ Δ₁) (h2 : LabOK S₂ Δ₂)
    (hd : ∀ n, S₁ n → S₂ n → False) :
    LabOK (fun n => S₁ n ∨ S₂ n) (Δ₁ ++ Δ₂) := by
  constructor
  · intro nm hnm
    rw [labelsOf_append, List.mem_append] at hnm
    rcases hnm with h | h
    · exact h1.1 nm h
    · exact h2.1 nm h
  · intro n
    rw [cntL_append]
    rcases (h1.2 n).2 with z1 | s1
    · rcases (h2.2 n).2 with z2 | s2
      · simp [z1, z2]
      · exact ⟨by have := (h2.2 n).1; omega, Or.inr (Or.inr s2)⟩
    · rcases (h2.2 n).2 with z2 | s2
      · exact ⟨by have := (h1.2 n).1; omega, Or.inr (Or.inl s1)⟩
      · exact absurd (hd n s1 s2) (by simp)

theorem LabOK.single_label {S : Nat → Prop} (k : Nat) (tag : Name) (hS : S k) :
    LabOK S [.label (mkLabel k tag)] := by
  constructor
  · intro nm hnm
    rw [labelsOf_single_label, List.mem_singleton] at hnm
    exact ⟨k, by rw [hnm, labelNum_mkLabel]⟩
  · intro n
    rw [cntL_single_label]
    by_cases h : k = n
    · subst h
      simp [hS]
    · simp [h]

theorem LabOK.single_nonlabel (S : Nat → Prop) (i : IrInstr) (hi : isLabel i = false) :
    LabOK S [i] := by
  constructor
  · intro nm hnm
    rw [labelsOf_single_nonlabel i hi] at hnm
    simp at hnm
  · intro n
    simp [cntL_single_nonlabel i hi]

theorem Stepped.refl (s : VS) : Stepped s s :=
  ⟨le_refl _, fun h => h, [], by simp, LabOK.nil _, by simp [targetsOf]⟩

theorem Stepped.trans {s1 s2 s3 : VS} (h1 : Stepped s1 s2) (h2 : Stepped s2 s3) :
    Stepped s1 s3 := by
  obtain ⟨hc1, hr1, Δ1, hi1, hw1, ht1⟩ := h1
  obtain ⟨hc2, hr2, Δ2, hi2, hw2, ht2⟩ := h2
  refine ⟨le_trans hc1 hc2, fun h => hr2 (hr1 h), Δ1 ++ Δ2, ?_, ?_, ?_⟩
  · rw [hi2, hi1, List.append_assoc]
  · refine LabOK.mono ?_ (LabOK.join hw1 hw2 (fun n a b => by omega))
    intro n hn
    rcases hn with h | h <;> exact ⟨by omega, by omega⟩
  · intro nm hnm
    rw [targetsOf_append, List.mem_append] at hnm
    rw [labelsOf_append, List.mem_append]
    rcases hnm with h | h
    · exact Or.inl (ht1 nm h)
    · exact Or.inr (ht2 nm h)

/-- Transition to a state with the same instruction list and label
counter (pure bookkeeping updates). -/
theorem Stepped.of_fields {s s' : VS} (hi : s'.instrs = s.instrs)
    (hl : s'.labelCounter = s.labelCounter) : Stepped s s' := by
  refine ⟨by omega, fun h => by rw [hi]; exact h, [], by simp [hi], LabOK.nil _, ?_⟩
  simp [targetsOf]

/-- `appendInstr` of any non-label instruction, decomposed: the
appended segment is the instruction itself, possibly preceded by a
fresh synthetic block label. -/
theorem appendInstr_step (i : IrInstr) (s : VS) (hi : isLabel i = false) :
    ∃ mid, (appendInstr i s).instrs = s.instrs ++ mid ∧
      s.labelCounter ≤ (appendInstr i s).labelCounter ∧
      (appendInstr i s).labelCounter ≤ s.labelCounter + 1 ∧
      targetsOf mid = targetsOfI i ∧
      LabOK (fun n => s.labelCounter < n ∧ n ≤ (appendInstr i s).labelCounter) mid ∧
      (appendInstr i s).tmpCounter = s.tmpCounter ∧
      (retLabelChk s.instrs = true → retLabelChk (appendInstr i s).instrs = true) := by
  rcases hr : endsRet s.instrs with _ | _
  · rw [appendInstr_not_ret i s hr]
    refine ⟨[i], by simp, by simp, by simp, by simp [targetsOf], ?_, by simp, ?_⟩
    · exact LabOK.single_nonlabel _ i hi
    · intro h
      show retLabelChk (s.instrs ++ [i]) = true
      rw [retLabelChk_concat, h, hr]
      simp
  · rw [appendInstr_ret i s hi hr]
    refine ⟨[.label (mkLabel (s.labelCounter + 1) blockTag), i], by simp, by simp, by simp,
      ?_, ?_, by simp, ?_⟩
    · rw [show ([IrInstr.label (mkLabel (s.labelCounter + 1) blockTag), i])
            = [IrInstr.label (mkLabel (s.labelCounter + 1) blockTag)] ++ [i] from rfl,
        targetsOf_append, targetsOf_single, targetsOf_single]
      simp [targetsOfI]
    · rw [show ([IrInstr.label (mkLabel (s.labelCounter + 1) blockTag), i])
            = [IrInstr.label (mkLabel (s.labelCounter + 1) blockTag)] ++ [i] from rfl]
      refine LabOK.mono ?_ (LabOK.join
        (LabOK.single_label (s.labelCounter + 1) blockTag rfl)
        (LabOK.single_nonlabel (fun n => False) i hi) ?_)
      · intro n hn
        rcases hn with h | h
        · subst h; simp
        · exact absurd h (by simp)
      · intro n h1 h2
        exact h2
    · intro h
      show retLabelChk (s.instrs ++ [.label _, i]) = true
      rw [show s.instrs ++ [.label (mkLabel (s.labelCounter + 1) blockTag), i]
            = (s.instrs ++ [.label (mkLabel (s.labelCounter + 1) blockTag)]) ++ [i] by
          simp]
      rw [retLabelChk_concat, retLabelChk_concat, h, endsRet_concat]
      simp [isLabel, isRet]

/-- `appendInstr` of any non-label, non-jump instruction is a
`Stepped` transition. -/
theorem Stepped.appendPlain (i : IrInstr) (s : VS) (hi : isLabel i = false)
    (ht : targetsOfI i = []) : Stepped s (appendInstr i s) := by
  obtain ⟨mid, h1, h2, h3, h4, h5, h6, h7⟩ := appendInstr_step i s hi
  refine ⟨h2, h7, mid, h1, h5, ?_⟩
  intro nm hnm
  rw [h4, ht] at hnm
  simp at hnm

end Low

namespace Low

/-! ### Combinators for chaining `Stepped` transitions -/

/-- Shift the start of a `Stepped` transition to a state with the same
instruction list and label counter. -/
theorem Stepped.fieldsPre {sA s' : VS} (h : Stepped sA s') (s : VS)
    (hi : sA.instrs = s.instrs) (hl : sA.labelCounter = s.labelCounter) :
    Stepped s s' := by
  obtain ⟨hc, hr, Δ, hi', hw, ht⟩ := h
  refine ⟨by omega, ?_, Δ, by rw [← hi]; exact hi', ?_, ht⟩
  · intro hx
    exact hr (by rw [hi]; exact hx)
  · refine LabOK.mono ?_ hw
    intro n hn
    omega

/-- Shift the end of a `Stepped` transition to a state with the same
instruction list and label counter. -/
theorem Stepped.post {s s1 : VS} (h : Stepped s s1) (s' : VS)
    (hi : s'.instrs = s1.instrs) (hl : s'.labelCounter = s1.labelCounter) :
    Stepped s s' := by
  obtain ⟨hc, hr, Δ, hi', hw, ht⟩ := h
  refine ⟨by omega, ?_, Δ, by rw [hi]; exact hi', ?_, ht⟩
  · intro hx
    rw [hi]
    exact hr hx
  · refine LabOK.mono ?_ hw
    intro n hn
    omega

/-- Extend a `Stepped` transition by appending one non-label,
non-jump instruction. -/
theorem Stepped.postAppend {s s1 : VS} (i : IrInstr) (h : Stepped s s1)
    (hil : isLabel i = false) (ht : targetsOfI i = []) :
    Stepped s (appendInstr i s1) :=
  Stepped.trans h (Stepped.appendPlain i s1 hil ht)

/-- `appendInstruction` never touches the accumulated function list. -/
theorem appendInstr_funcDefs (i : IrInstr) (s : VS) :
    (appendInstr i s).funcDefs = s.funcDefs := by
  unfold appendInstr
  split
  · rfl
  · split
    · split
      · simp [nextLabel]
      · rfl
    · rfl

end Low

namespace Low

/-- The lowering visitor only ever appends instructions and interned
strings: the function list is untouched by every task. -/
theorem lowerGo_funcDefs :
    ∀ (fuel : Nat) (t : Task) (s : VS) (out : LowOut),
      lowerGo fuel t s = .ok out → out.st.funcDefs = s.funcDefs := by
  intro fuel
  induction fuel with
  | zero => intro t s out h; simp [lowerGo] at h
  | succ fuel ih =>
    intro t s out h
    match t with
    | .expr e =>
      match e with
      | .literal ty i b sv =>
        match ty with
        | none => simp [lowerGo] at h
        | some tt =>
          match htt : tt.kind with
          | .int =>
            simp only [lowerGo, htt] at h
            injection h with h'
            rw [← h']
          | .bool =>
            simp only [lowerGo, htt] at h
            injection h with h'
            rw [← h']
          | .string =>
            simp only [lowerGo, htt, nextIdent] at h
            injection h with h'
            rw [← h']
          | .void => simp [lowerGo, htt] at h
          | .pointer => simp [lowerGo, htt] at h
          | .unknown => simp [lowerGo, htt] at h
          | .vararg => simp [lowerGo, htt] at h
          | .any => simp [lowerGo, htt] at h
          | .array => simp [lowerGo, htt] at h
      | .variableRef x ty =>
        simp only [lowerGo] at h
        injection h with h'
        rw [← h']
      | .deref e1 ty =>
        simp only [lowerGo] at h
        obtain ⟨r, h1, h⟩ := exists_of_bind_ok h
        have e1d : r.st.funcDefs = s.funcDefs := ih _ _ _ h1
        simp only [nextIdent] at h
        injection h with h'
        rw [← h']
        show (appendInstr _ _).funcDefs = _
        rw [appendInstr_funcDefs]
        exact e1d
      | .binop op l r ty =>
        cases op
        case logAnd =>
          simp only [lowerGo] at h
          obtain ⟨r1, h1, h⟩ := exists_of_bind_ok h
          have e1 : r1.st.funcDefs = s.funcDefs := (ih _ _ _ h1).trans rfl
          simp only [nextIdent, nextLabel] at h
          obtain ⟨r2, h2, h⟩ := exists_of_bind_ok h
          have e2 : r2.st.funcDefs = s.funcDefs := (ih _ _ _ h2).trans (by
            show (appendInstr _ (appendInstr _ (appendInstr _ (appendInstr _
              (appendInstr _ _))))).funcDefs = _
            simp only [appendInstr_funcDefs]
            exact e1)
          injection h with h'
          rw [← h']
          show (appendInstr _ (appendInstr _ _)).funcDefs = _
          simp only [appendInstr_funcDefs]
          exact e2
        case logOr =>
          simp only [lowerGo] at h
          obtain ⟨r1, h1, h⟩ := exists_of_bind_ok h
          have e1 : r1.st.funcDefs = s.funcDefs := (ih _ _ _ h1).trans rfl
          simp only [nextIdent, nextLabel] at h
          obtain ⟨r2, h2, h⟩ := exists_of_bind_ok h
          have e2 : r2.st.funcDefs = s.funcDefs := (ih _ _ _ h2).trans (by
            show (appendInstr _ (appendInstr _ (appendInstr _ (appendInstr _
              (appendInstr _ _))))).funcDefs = _
            simp only [appendInstr_funcDefs]
            exact e1)
          injection h with h'
          rw [← h']
          show (appendInstr _ (appendInstr _ _)).funcDefs = _
          simp only [appendInstr_funcDefs]
          exact e2
        all_goals
          (simp only [lowerGo] at h
           obtain ⟨r1, h1, h⟩ := exists_of_bind_ok h
           have e1 : r1.st.funcDefs = s.funcDefs := (ih _ _ _ h1).trans rfl
           obtain ⟨r2, h2, h⟩ := exists_of_bind_ok h
           have e2 : r2.st.funcDefs = s.funcDefs := (ih _ _ _ h2).trans e1
           simp only [nextIdent] at h
           split at h <;>
             (injection h with h'
              rw [← h']
              simp only [appendInstr_funcDefs]
              exact e2))
      | .call ident args ty =>
        simp only [lowerGo] at h
        obtain ⟨ra, h1, h⟩ := exists_of_bind_ok h
        have e1 : ra.st.funcDefs = s.funcDefs := ih _ _ _ h1
        simp only [nextIdent] at h
        injection h with h'
        rw [← h']
        show (appendInstr _ _).funcDefs = _
        rw [appendInstr_funcDefs]
        exact e1
    | .args l =>
      match l with
      | [] =>
        simp only [lowerGo] at h
        injection h with h'
        rw [← h']
      | a :: rest =>
        simp only [lowerGo] at h
        obtain ⟨r1, h1, h⟩ := exists_of_bind_ok h
        have e1 : r1.st.funcDefs = s.funcDefs := (ih _ _ _ h1).trans rfl
        obtain ⟨r2, h2, h⟩ := exists_of_bind_ok h
        have e2 : r2.st.funcDefs = s.funcDefs := (ih _ _ _ h2).trans e1
        injection h with h'
        rw [← h']
        exact e2
    | .instr i =>
      match i with
      | .declare _ _ =>
        simp only [lowerGo] at h
        injection h with h'
        rw [← h']
      | .assign lhs value =>
        simp only [lowerGo] at h
        obtain ⟨rv, h1, h⟩ := exists_of_bind_ok h
        have e1 : rv.st.funcDefs = s.funcDefs := (ih _ _ _ h1).trans rfl
        match lhs with
        | .deref p _ty =>
          obtain ⟨rp, h2, h⟩ := exists_of_bind_ok h
          have e2 : rp.st.funcDefs = s.funcDefs := (ih _ _ _ h2).trans e1
          injection h with h'
          rw [← h']
          show (appendInstr _ _).funcDefs = _
          rw [appendInstr_funcDefs]
          exact e2
        | .var x ty =>
          injection h with h'
          rw [← h']
          show (appendInstr _ _).funcDefs = _
          rw [appendInstr_funcDefs]
          exact e1
      | .call ident args ty =>
        simp only [lowerGo] at h
        obtain ⟨ra, h1, h⟩ := exists_of_bind_ok h
        have e1 : ra.st.funcDefs = s.funcDefs := ih _ _ _ h1
        simp only [nextIdent] at h
        injection h with h'
        rw [← h']
        show (appendInstr _ _).funcDefs = _
        rw [appendInstr_funcDefs]
        exact e1
      | .ret value =>
        match value with
        | none =>
          simp only [lowerGo] at h
          injection h with h'
          rw [← h']
          show (appendInstr _ _).funcDefs = _
          rw [appendInstr_funcDefs]
        | some e =>
          simp only [lowerGo] at h
          obtain ⟨rv, h1, h⟩ := exists_of_bind_ok h
          have e1 : rv.st.funcDefs = s.funcDefs := (ih _ _ _ h1).trans rfl
          injection h with h'
          rw [← h']
          show (appendInstr _ _).funcDefs = _
          rw [appendInstr_funcDefs]
          exact e1
      | .ifS init cond thenB els =>
        simp only [lowerGo, nextLabel] at h
        obtain ⟨ri, h1, h⟩ := exists_of_bind_ok h
        have e1 : ri.st.funcDefs = s.funcDefs := (ih _ _ _ h1).trans rfl
        obtain ⟨rc, h2, h⟩ := exists_of_bind_ok h
        have e2 : rc.st.funcDefs = s.funcDefs := (ih _ _ _ h2).trans e1
        obtain ⟨rt, h3, h⟩ := exists_of_bind_ok h
        have e3 : rt.st.funcDefs = s.funcDefs := (ih _ _ _ h3).trans (by
          show (appendInstr _ (appendInstr _ _)).funcDefs = _
          simp only [appendInstr_funcDefs]
          exact e2)
        cases els with
        | none =>
          obtain ⟨re, h4, h⟩ := exists_of_bind_ok h
          have e4 : re.st.funcDefs = s.funcDefs := by
            injection h4 with h4'
            rw [← h4']
            show (appendInstr _ (appendInstr _ _)).funcDefs = _
            simp only [appendInstr_funcDefs]
            exact e3
          injection h with h'
          rw [← h']
          show (appendInstr _ _).funcDefs = _
          rw [appendInstr_funcDefs]
          exact e4
        | some e =>
          obtain ⟨re, h4, h⟩ := exists_of_bind_ok h
          have e4 : re.st.funcDefs = s.funcDefs := (ih _ _ _ h4).trans (by
            show (appendInstr _ (appendInstr _ _)).funcDefs = _
            simp only [appendInstr_funcDefs]
            exact e3)
          injection h with h'
          rw [← h']
          show (appendInstr _ _).funcDefs = _
          rw [appendInstr_funcDefs]
          exact e4
      | .forS init cond post bodyB =>
        simp only [lowerGo, nextLabel] at h
        obtain ⟨ri, h1, h⟩ := exists_of_bind_ok h
        have e1 : ri.st.funcDefs = s.funcDefs := (ih _ _ _ h1).trans rfl
        obtain ⟨rc, h2, h⟩ := exists_of_bind_ok h
        have e2 : rc.st.funcDefs = s.funcDefs := (ih _ _ _ h2).trans (by
          show (appendInstr _ _).funcDefs = _
          rw [appendInstr_funcDefs]
          exact e1)
        obtain ⟨rb, h3, h⟩ := exists_of_bind_ok h
        have e3 : rb.st.funcDefs = s.funcDefs := (ih _ _ _ h3).trans (by
          show (appendInstr _ (appendInstr _ _)).funcDefs = _
          simp only [appendInstr_funcDefs]
          exact e2)
        obtain ⟨rp, h4, h⟩ := exists_of_bind_ok h
        have e4 : rp.st.funcDefs = s.funcDefs := (ih _ _ _ h4).trans e3
        injection h with h'
        rw [← h']
        show (appendInstr _ (appendInstr _ _)).funcDefs = _
        simp only [appendInstr_funcDefs]
        exact e4
      | .body instrs =>
        simp only [lowerGo] at h
        exact ih _ _ _ h
    | .seq l =>
      match l with
      | [] =>
        simp only [lowerGo] at h
        injection h with h'
        rw [← h']
      | i :: rest =>
        simp only [lowerGo] at h
        obtain ⟨r1, h1, h⟩ := exists_of_bind_ok h
        have e1 : r1.st.funcDefs = s.funcDefs := ih _ _ _ h1
        exact (ih _ _ _ h).trans e1

end Low

namespace Low

/-- `Stepped` for the `logAnd` arm of `VisitBinop`: assembled from the
left-operand segment, the `Jnz` (with a possible synthetic block
label), the explicit `false`/`true`/`end` labels and moves, and the
right-operand segment. -/
theorem stepped_logAnd (fuel : Nat)
    (ih : ∀ (t : Task) (s : VS) (out : LowOut), lowerGo fuel t s = .ok out → Stepped s out.st)
    (l r : Expr) (ty : Option AstType) (s : VS) (out : LowOut)
    (h : lowerGo (fuel + 1) (.expr (.binop .logAnd l r ty)) s = .ok out) :
    Stepped s out.st := by
  simp only [lowerGo] at h
  obtain ⟨r1, h1, h⟩ := exists_of_bind_ok h
  obtain ⟨r2, h2, h⟩ := exists_of_bind_ok h
  injection h with h'
  have h2' : lowerGo fuel (.expr r)
      (appendInstr (.label (mkLabel (r1.st.labelCounter + 1) trueTag))
        (appendInstr (.jmp (mkLabel (r1.st.labelCounter + 3) endTag))
          (appendInstr (.binop .add (some (.ident (mkIdent tmpPre (r1.st.tmpCounter + 1))))
              r1.st.lastVal (some (.int 0)))
            (appendInstr (.label (mkLabel (r1.st.labelCounter + 2) falseTag))
              (appendInstr (.jnz r1.st.lastVal (mkLabel (r1.st.labelCounter + 1) trueTag)
                  (mkLabel (r1.st.labelCounter + 2) falseTag))
                { dataDefs := r1.st.dataDefs, funcDefs := r1.st.funcDefs, instrs := r1.st.instrs, tmpCounter := r1.st.tmpCounter + 1, labelCounter := r1.st.labelCounter + 3, lastVal := r1.st.lastVal, lastType := r1.st.lastType }))))) = .ok r2 := h2
  have hfin : out.st = { appendInstr (.label (mkLabel (r1.st.labelCounter + 3) endTag))
      (appendInstr (.binop .add (some (.ident (mkIdent tmpPre (r1.st.tmpCounter + 1))))
          r2.st.lastVal (some (.int 0))) r2.st)
      with lastVal := some (.ident (mkIdent tmpPre (r1.st.tmpCounter + 1))) } :=
    (congrArg LowOut.st h').symm
  obtain ⟨hc1, hr1, Δ1, hi1, hw1, ht1⟩ := (ih _ _ _ h1).fieldsPre s rfl rfl
  obtain ⟨mid, m_i, m_l1, m_l2, m_t, m_w, m_tc, m_r⟩ :=
    appendInstr_step (.jnz r1.st.lastVal (mkLabel (r1.st.labelCounter + 1) trueTag)
        (mkLabel (r1.st.labelCounter + 2) falseTag))
      { dataDefs := r1.st.dataDefs, funcDefs := r1.st.funcDefs, instrs := r1.st.instrs, tmpCounter := r1.st.tmpCounter + 1, labelCounter := r1.st.labelCounter + 3, lastVal := r1.st.lastVal, lastType := r1.st.lastType } rfl
  have m_i' : (appendInstr (.jnz r1.st.lastVal (mkLabel (r1.st.labelCounter + 1) trueTag)
        (mkLabel (r1.st.labelCounter + 2) falseTag))
      { dataDefs := r1.st.dataDefs, funcDefs := r1.st.funcDefs, instrs := r1.st.instrs, tmpCounter := r1.st.tmpCounter + 1, labelCounter := r1.st.labelCounter + 3, lastVal := r1.st.lastVal, lastType := r1.st.lastType }).instrs
      = r1.st.instrs ++ mid := m_i
  have m_l1' : r1.st.labelCounter + 3 ≤
      (appendInstr (.jnz r1.st.lastVal (mkLabel (r1.st.labelCounter + 1) trueTag)
          (mkLabel (r1.st.labelCounter + 2) falseTag))
        { dataDefs := r1.st.dataDefs, funcDefs := r1.st.funcDefs, instrs := r1.st.instrs, tmpCounter := r1.st.tmpCounter + 1, labelCounter := r1.st.labelCounter + 3, lastVal := r1.st.lastVal, lastType := r1.st.lastType }).labelCounter := m_l1
  have m_l2' : (appendInstr (.jnz r1.st.lastVal (mkLabel (r1.st.labelCounter + 1) trueTag)
          (mkLabel (r1.st.labelCounter + 2) falseTag))
        { dataDefs := r1.st.dataDefs, funcDefs := r1.st.funcDefs, instrs := r1.st.instrs, tmpCounter := r1.st.tmpCounter + 1, labelCounter := r1.st.labelCounter + 3, lastVal := r1.st.lastVal, lastType := r1.st.lastType }).labelCounter
      ≤ r1.st.labelCounter + 4 := m_l2
  have m_w' : LabOK (fun n => r1.st.labelCounter + 3 < n ∧
      n ≤ (appendInstr (.jnz r1.st.lastVal (mkLabel (r1.st.labelCounter + 1) trueTag)
            (mkLabel (r1.st.labelCounter + 2) falseTag))
          { dataDefs := r1.st.dataDefs, funcDefs := r1.st.funcDefs, instrs := r1.st.instrs, tmpCounter := r1.st.tmpCounter + 1, labelCounter := r1.st.labelCounter + 3, lastVal := r1.st.lastVal, lastType := r1.st.lastType }).labelCounter) mid :=
    LabOK.mono (fun n hn => hn) m_w
  have m_r' : (retLabelChk r1.st.instrs = true →
      retLabelChk (appendInstr (.jnz r1.st.lastVal (mkLabel (r1.st.labelCounter + 1) trueTag)
            (mkLabel (r1.st.labelCounter + 2) falseTag))
          { dataDefs := r1.st.dataDefs, funcDefs := r1.st.funcDefs, instrs := r1.st.instrs, tmpCounter := r1.st.tmpCounter + 1, labelCounter := r1.st.labelCounter + 3, lastVal := r1.st.lastVal, lastType := r1.st.lastType }).instrs = true) := m_r
  have m_t' : targetsOf mid = [mkLabel (r1.st.labelCounter + 1) trueTag,
      mkLabel (r1.st.labelCounter + 2) falseTag] := by rw [m_t]; rfl
  have eS10i : (appendInstr (.label (mkLabel (r1.st.labelCounter + 1) trueTag))
        (appendInstr (.jmp (mkLabel (r1.st.labelCounter + 3) endTag))
          (appendInstr (.binop .add (some (.ident (mkIdent tmpPre (r1.st.tmpCounter + 1))))
              r1.st.lastVal (some (.int 0)))
            (appendInstr (.label (mkLabel (r1.st.labelCounter + 2) falseTag))
              (appendInstr (.jnz r1.st.lastVal (mkLabel (r1.st.labelCounter + 1) trueTag)
                  (mkLabel (r1.st.labelCounter + 2) falseTag))
                { dataDefs := r1.st.dataDefs, funcDefs := r1.st.funcDefs, instrs := r1.st.instrs, tmpCounter := r1.st.tmpCounter + 1, labelCounter := r1.st.labelCounter + 3, lastVal := r1.st.lastVal, lastType := r1.st.lastType }))))).instrs
      = (appendInstr (.jnz r1.st.lastVal (mkLabel (r1.st.labelCounter + 1) trueTag)
            (mkLabel (r1.st.labelCounter + 2) falseTag))
          { dataDefs := r1.st.dataDefs, funcDefs := r1.st.funcDefs, instrs := r1.st.instrs, tmpCounter := r1.st.tmpCounter + 1, labelCounter := r1.st.labelCounter + 3, lastVal := r1.st.lastVal, lastType := r1.st.lastType }).instrs ++
        [.label (mkLabel (r1.st.labelCounter + 2) falseTag),
         .binop .add (some (.ident (mkIdent tmpPre (r1.st.tmpCounter + 1))))
           r1.st.lastVal (some (.int 0)),
         .jmp (mkLabel (r1.st.labelCounter + 3) endTag),
         .label (mkLabel (r1.st.labelCounter + 1) trueTag)] := by
    simp [appendInstr_label, appendInstr_not_ret, endsRet_concat, endsRet_append_cons,
      endsRet_cons_cons, endsRet_single, isRet, List.append_assoc]
  have eS10l : (appendInstr (.label (mkLabel (r1.st.labelCounter + 1) trueTag))
        (appendInstr (.jmp (mkLabel (r1.st.labelCounter + 3) endTag))
          (appendInstr (.binop .add (some (.ident (mkIdent tmpPre (r1.st.tmpCounter + 1))))
              r1.st.lastVal (some (.int 0)))
            (appendInstr (.label (mkLabel (r1.st.labelCounter + 2) falseTag))
              (appendInstr (.jnz r1.st.lastVal (mkLabel (r1.st.labelCounter + 1) trueTag)
                  (mkLabel (r1.st.labelCounter + 2) falseTag))
                { dataDefs := r1.st.dataDefs, funcDefs := r1.st.funcDefs, instrs := r1.st.instrs, tmpCounter := r1.st.tmpCounter + 1, labelCounter := r1.st.labelCounter + 3, lastVal := r1.st.lastVal, lastType := r1.st.lastType }))))).labelCounter
      = (appendInstr (.jnz r1.st.lastVal (mkLabel (r1.st.labelCounter + 1) trueTag)
            (mkLabel (r1.st.labelCounter + 2) falseTag))
          { dataDefs := r1.st.dataDefs, funcDefs := r1.st.funcDefs, instrs := r1.st.instrs, tmpCounter := r1.st.tmpCounter + 1, labelCounter := r1.st.labelCounter + 3, lastVal := r1.st.lastVal, lastType := r1.st.lastType }).labelCounter := by
    simp [appendInstr_label, appendInstr_not_ret, endsRet_concat, endsRet_append_cons,
      endsRet_cons_cons, endsRet_single, isRet, List.append_assoc]
  obtain ⟨hc2, hr2, Δ2, hi2, hw2, ht2⟩ := ih _ _ _ h2'
  rw [eS10i] at hi2
  simp only [eS10l] at hw2 hc2 hr2
  have hS10e : endsRet (appendInstr (.label (mkLabel (r1.st.labelCounter + 1) trueTag))
        (appendInstr (.jmp (mkLabel (r1.st.labelCounter + 3) endTag))
          (appendInstr (.binop .add (some (.ident (mkIdent tmpPre (r1.st.tmpCounter + 1))))
              r1.st.lastVal (some (.int 0)))
            (appendInstr (.label (mkLabel (r1.st.labelCounter + 2) falseTag))
              (appendInstr (.jnz r1.st.lastVal (mkLabel (r1.st.labelCounter + 1) trueTag)
                  (mkLabel (r1.st.labelCounter + 2) falseTag))
                { dataDefs := r1.st.dataDefs, funcDefs := r1.st.funcDefs, instrs := r1.st.instrs, tmpCounter := r1.st.tmpCounter + 1, labelCounter := r1.st.labelCounter + 3, lastVal := r1.st.lastVal, lastType := r1.st.lastType }))))).instrs = false := by
    rw [eS10i]
    simp [endsRet_append_cons, endsRet_cons_cons, endsRet_single, isRet]
  have hr2e : endsRet r2.st.instrs = false := (expr_not_endsRet fuel).1 r _ r2 h2' hS10e
  have efin_i : out.st.instrs = r2.st.instrs ++
      [.binop .add (some (.ident (mkIdent tmpPre (r1.st.tmpCounter + 1))))
         r2.st.lastVal (some (.int 0)),
       .label (mkLabel (r1.st.labelCounter + 3) endTag)] := by
    rw [hfin]
    show (appendInstr _ (appendInstr _ r2.st)).instrs = _
    simp [appendInstr_label, appendInstr_not_ret, hr2e, endsRet_concat, isRet,
      List.append_assoc]
  have efin_l : out.st.labelCounter = r2.st.labelCounter := by
    rw [hfin]
    show (appendInstr _ (appendInstr _ r2.st)).labelCounter = _
    simp [appendInstr_label, appendInstr_not_ret, hr2e, endsRet_concat, isRet]
  have rlfin : retLabelChk r2.st.instrs = true → retLabelChk out.st.instrs = true := by
    intro hx
    rw [hfin]
    show retLabelChk (appendInstr _ (appendInstr _ r2.st)).instrs = true
    exact appendInstr_retLabelChk _ _ (appendInstr_retLabelChk _ _ hx)
  have rl10 : retLabelChk (appendInstr (.jnz r1.st.lastVal
          (mkLabel (r1.st.labelCounter + 1) trueTag)
          (mkLabel (r1.st.labelCounter + 2) falseTag))
        { dataDefs := r1.st.dataDefs, funcDefs := r1.st.funcDefs, instrs := r1.st.instrs, tmpCounter := r1.st.tmpCounter + 1, labelCounter := r1.st.labelCounter + 3, lastVal := r1.st.lastVal, lastType := r1.st.lastType }).instrs = true →
      retLabelChk (appendInstr (.label (mkLabel (r1.st.labelCounter + 1) trueTag))
        (appendInstr (.jmp (mkLabel (r1.st.labelCounter + 3) endTag))
          (appendInstr (.binop .add (some (.ident (mkIdent tmpPre (r1.st.tmpCounter + 1))))
              r1.st.lastVal (some (.int 0)))
            (appendInstr (.label (mkLabel (r1.st.labelCounter + 2) falseTag))
              (appendInstr (.jnz r1.st.lastVal (mkLabel (r1.st.labelCounter + 1) trueTag)
                  (mkLabel (r1.st.labelCounter + 2) falseTag))
                { dataDefs := r1.st.dataDefs, funcDefs := r1.st.funcDefs, instrs := r1.st.instrs, tmpCounter := r1.st.tmpCounter + 1, labelCounter := r1.st.labelCounter + 3, lastVal := r1.st.lastVal, lastType := r1.st.lastType }))))).instrs = true :=
    fun hx => appendInstr_retLabelChk _ _ (appendInstr_retLabelChk _ _
      (appendInstr_retLabelChk _ _ (appendInstr_retLabelChk _ _ hx)))
  have wF : LabOK (fun n => n = r1.st.labelCounter + 2)
      [(.label (mkLabel (r1.st.labelCounter + 2) falseTag) : IrInstr)] :=
    LabOK.single_label _ _ rfl
  have wT : LabOK (fun n => n = r1.st.labelCounter + 1)
      [(.label (mkLabel (r1.st.labelCounter + 1) trueTag) : IrInstr)] :=
    LabOK.single_label _ _ rfl
  have wE : LabOK (fun n => n = r1.st.labelCounter + 3)
      [(.label (mkLabel (r1.st.labelCounter + 3) endTag) : IrInstr)] :=
    LabOK.single_label _ _ rfl
  have wm1 : LabOK (fun n => n < 0)
      [(.binop .add (some (.ident (mkIdent tmpPre (r1.st.tmpCounter + 1))))
         r1.st.lastVal (some (.int 0)) : IrInstr)] :=
    LabOK.single_nonlabel _ _ rfl
  have wm2 : LabOK (fun n => n < 0)
      [(.binop .add (some (.ident (mkIdent tmpPre (r1.st.tmpCounter + 1))))
         r2.st.lastVal (some (.int 0)) : IrInstr)] :=
    LabOK.single_nonlabel _ _ rfl
  have wjE : LabOK (fun n => n < 0)
      [(.jmp (mkLabel (r1.st.labelCounter + 3) endTag) : IrInstr)] :=
    LabOK.single_nonlabel _ _ rfl
  have lm1 : labelsOf [(.binop .add (some (.ident (mkIdent tmpPre (r1.st.tmpCounter + 1))))
      r1.st.lastVal (some (.int 0)) : IrInstr)] = [] := labelsOf_single_nonlabel _ rfl
  have lm2 : labelsOf [(.binop .add (some (.ident (mkIdent tmpPre (r1.st.tmpCounter + 1))))
      r2.st.lastVal (some (.int 0)) : IrInstr)] = [] := labelsOf_single_nonlabel _ rfl
  have ljE : labelsOf [(.jmp (mkLabel (r1.st.labelCounter + 3) endTag) : IrInstr)] = [] :=
    labelsOf_single_nonlabel _ rfl
  refine ⟨?_, ?_, Δ1 ++ (mid ++
      ([.label (mkLabel (r1.st.labelCounter + 2) falseTag)] ++
        ([.binop .add (some (.ident (mkIdent tmpPre (r1.st.tmpCounter + 1))))
            r1.st.lastVal (some (.int 0))] ++
          ([.jmp (mkLabel (r1.st.labelCounter + 3) endTag)] ++
            ([.label (mkLabel (r1.st.labelCounter + 1) trueTag)] ++
              (Δ2 ++
                ([.binop .add (some (.ident (mkIdent tmpPre (r1.st.tmpCounter + 1))))
                    r2.st.lastVal (some (.int 0))] ++
                  [.label (mkLabel (r1.st.labelCounter + 3) endTag)]))))))), ?_, ?_, ?_⟩
  · rw [efin_l]
    omega
  · intro hx
    exact rlfin (hr2 (rl10 (m_r' (hr1 hx))))
  · rw [efin_i, hi2, m_i', hi1]
    simp [List.append_assoc]
  · have j1 := LabOK.join wm2 wE (by intro n a b; omega)
    have j2 := LabOK.join hw2 j1 (by intro n a b; omega)
    have j3 := LabOK.join wT j2 (by intro n a b; omega)
    have j4 := LabOK.join wjE j3 (by intro n a b; omega)
    have j5 := LabOK.join wm1 j4 (by intro n a b; omega)
    have j6 := LabOK.join wF j5 (by intro n a b; omega)
    have j7 := LabOK.join m_w' j6 (by intro n a b; omega)
    have j8 := LabOK.join hw1 j7 (by intro n a b; omega)
    refine LabOK.mono ?_ j8
    intro n hn
    rw [efin_l]
    omega
  · intro nm hnm
    simp only [targetsOf_append, labelsOf_append, List.mem_append, m_t', targetsOf_single,
      targetsOfI, labelsOf_single_label, lm1, lm2, ljE, List.mem_singleton, List.mem_cons,
      List.not_mem_nil, or_false, false_or] at hnm ⊢
    rcases hnm with h | h
    · exact Or.inl (ht1 nm h)
    · rcases h with h | h
      · rcases h with h | h
        · exact Or.inr (Or.inr (Or.inr (Or.inl h)))
        · exact Or.inr (Or.inr (Or.inl h))
      · rcases h with h | h
        · exact Or.inr (Or.inr (Or.inr (Or.inr (Or.inr h))))
        · exact Or.inr (Or.inr (Or.inr (Or.inr (Or.inl (ht2 nm h)))))


/-- `Stepped` for the `logOr` arm of `VisitBinop`: the same assembly as
for `logAnd`, with the `true` and `false` label roles swapped. -/
theorem stepped_logOr (fuel : Nat)
    (ih : ∀ (t : Task) (s : VS) (out : LowOut), lowerGo fuel t s = .ok out → Stepped s out.st)
    (l r : Expr) (ty : Option AstType) (s : VS) (out : LowOut)
    (h : lowerGo (fuel + 1) (.expr (.binop .logOr l r ty)) s = .ok out) :
    Stepped s out.st := by
  simp only [lowerGo] at h
  obtain ⟨r1, h1, h⟩ := exists_of_bind_ok h
  obtain ⟨r2, h2, h⟩ := exists_of_bind_ok h
  injection h with h'
  have h2' : lowerGo fuel (.expr r)
      (appendInstr (.label (mkLabel (r1.st.labelCounter + 2) falseTag))
        (appendInstr (.jmp (mkLabel (r1.st.labelCounter + 3) endTag))
          (appendInstr (.binop .add (some (.ident (mkIdent tmpPre (r1.st.tmpCounter + 1))))
              r1.st.lastVal (some (.int 0)))
            (appendInstr (.label (mkLabel (r1.st.labelCounter + 1) trueTag))
              (appendInstr (.jnz r1.st.lastVal (mkLabel (r1.st.labelCounter + 1) trueTag)
                  (mkLabel (r1.st.labelCounter + 2) falseTag))
                { dataDefs := r1.st.dataDefs, funcDefs := r1.st.funcDefs, instrs := r1.st.instrs, tmpCounter := r1.st.tmpCounter + 1, labelCounter := r1.st.labelCounter + 3, lastVal := r1.st.lastVal, lastType := r1.st.lastType }))))) = .ok r2 := h2
  have hfin : out.st = { appendInstr (.label (mkLabel (r1.st.labelCounter + 3) endTag))
      (appendInstr (.binop .add (some (.ident (mkIdent tmpPre (r1.st.tmpCounter + 1))))
          r2.st.lastVal (some (.int 0))) r2.st)
      with lastVal := some (.ident (mkIdent tmpPre (r1.st.tmpCounter + 1))) } :=
    (congrArg LowOut.st h').symm
  obtain ⟨hc1, hr1, Δ1, hi1, hw1, ht1⟩ := (ih _ _ _ h1).fieldsPre s rfl rfl
  obtain ⟨mid, m_i, m_l1, m_l2, m_t, m_w, m_tc, m_r⟩ :=
    appendInstr_step (.jnz r1.st.lastVal (mkLabel (r1.st.labelCounter + 1) trueTag)
        (mkLabel (r1.st.labelCounter + 2) falseTag))
      { dataDefs := r1.st.dataDefs, funcDefs := r1.st.funcDefs, instrs := r1.st.instrs, tmpCounter := r1.st.tmpCounter + 1, labelCounter := r1.st.labelCounter + 3, lastVal := r1.st.lastVal, lastType := r1.st.lastType } rfl
  have m_i' : (appendInstr (.jnz r1.st.lastVal (mkLabel (r1.st.labelCounter + 1) trueTag)
        (mkLabel (r1.st.labelCounter + 2) falseTag))
      { dataDefs := r1.st.dataDefs, funcDefs := r1.st.funcDefs, instrs := r1.st.instrs, tmpCounter := r1.st.tmpCounter + 1, labelCounter := r1.st.labelCounter + 3, lastVal := r1.st.lastVal, lastType := r1.st.lastType }).instrs
      = r1.st.instrs ++ mid := m_i
  have m_l1' : r1.st.labelCounter + 3 ≤
      (appendInstr (.jnz r1.st.lastVal (mkLabel (r1.st.labelCounter + 1) trueTag)
          (mkLabel (r1.st.labelCounter + 2) falseTag))
        { dataDefs := r1.st.dataDefs, funcDefs := r1.st.funcDefs, instrs := r1.st.instrs, tmpCounter := r1.st.tmpCounter + 1, labelCounter := r1.st.labelCounter + 3, lastVal := r1.st.lastVal, lastType := r1.st.lastType }).labelCounter := m_l1
  have m_l2' : (appendInstr (.jnz r1.st.lastVal (mkLabel (r1.st.labelCounter + 1) trueTag)
          (mkLabel (r1.st.labelCounter + 2) falseTag))
        { dataDefs := r1.st.dataDefs, funcDefs := r1.st.funcDefs, instrs := r1.st.instrs, tmpCounter := r1.st.tmpCounter + 1, labelCounter := r1.st.labelCounter + 3, lastVal := r1.st.lastVal, lastType := r1.st.lastType }).labelCounter
      ≤ r1.st.labelCounter + 4 := m_l2
  have m_w' : LabOK (fun n => r1.st.labelCounter + 3 < n ∧
      n ≤ (appendInstr (.jnz r1.st.lastVal (mkLabel (r1.st.labelCounter + 1) trueTag)
            (mkLabel (r1.st.labelCounter + 2) falseTag))
          { dataDefs := r1.st.dataDefs, funcDefs := r1.st.funcDefs, instrs := r1.st.instrs, tmpCounter := r1.st.tmpCounter + 1, labelCounter := r1.st.labelCounter + 3, lastVal := r1.st.lastVal, lastType := r1.st.lastType }).labelCounter) mid :=
    LabOK.mono (fun n hn => hn) m_w
  have m_r' : (retLabelChk r1.st.instrs = true →
      retLabelChk (appendInstr (.jnz r1.st.lastVal (mkLabel (r1.st.labelCounter + 1) trueTag)
            (mkLabel (r1.st.labelCounter + 2) falseTag))
          { dataDefs := r1.st.dataDefs, funcDefs := r1.st.funcDefs, instrs := r1.st.instrs, tmpCounter := r1.st.tmpCounter + 1, labelCounter := r1.st.labelCounter + 3, lastVal := r1.st.lastVal, lastType := r1.st.lastType }).instrs = true) := m_r
  have m_t' : targetsOf mid = [mkLabel (r1.st.labelCounter + 1) trueTag,
      mkLabel (r1.st.labelCounter + 2) falseTag] := by rw [m_t]; rfl
  have eS10i : (appendInstr (.label (mkLabel (r1.st.labelCounter + 2) falseTag))
        (appendInstr (.jmp (mkLabel (r1.st.labelCounter + 3) endTag))
          (appendInstr (.binop .add (some (.ident (mkIdent tmpPre (r1.st.tmpCounter + 1))))
              r1.st.lastVal (some (.int 0)))
            (appendInstr (.label (mkLabel (r1.st.labelCounter + 1) trueTag))
              (appendInstr (.jnz r1.st.lastVal (mkLabel (r1.st.labelCounter + 1) trueTag)
                  (mkLabel (r1.st.labelCounter + 2) falseTag))
                { dataDefs := r1.st.dataDefs, funcDefs := r1.st.funcDefs, instrs := r1.st.instrs, tmpCounter := r1.st.tmpCounter + 1, labelCounter := r1.st.labelCounter + 3, lastVal := r1.st.lastVal, lastType := r1.st.lastType }))))).instrs
      = (appendInstr (.jnz r1.st.lastVal (mkLabel (r1.st.labelCounter + 1) trueTag)
            (mkLabel (r1.st.labelCounter + 2) falseTag))
          { dataDefs := r1.st.dataDefs, funcDefs := r1.st.funcDefs, instrs := r1.st.instrs, tmpCounter := r1.st.tmpCounter + 1, labelCounter := r1.st.labelCounter + 3, lastVal := r1.st.lastVal, lastType := r1.st.lastType }).instrs ++
        [.label (mkLabel (r1.st.labelCounter + 1) trueTag),
         .binop .add (some (.ident (mkIdent tmpPre (r1.st.tmpCounter + 1))))
           r1.st.lastVal (some (.int 0)),
         .jmp (mkLabel (r1.st.labelCounter + 3) endTag),
         .label (mkLabel (r1.st.labelCounter + 2) falseTag)] := by
    simp [appendInstr_label, appendInstr_not_ret, endsRet_concat, endsRet_append_cons,
      endsRet_cons_cons, endsRet_single, isRet, List.append_assoc]
  have eS10l : (appendInstr (.label (mkLabel (r1.st.labelCounter + 2) falseTag))
        (appendInstr (.jmp (mkLabel (r1.st.labelCounter + 3) endTag))
          (appendInstr (.binop .add (some (.ident (mkIdent tmpPre (r1.st.tmpCounter + 1))))
              r1.st.lastVal (some (.int 0)))
            (appendInstr (.label (mkLabel (r1.st.labelCounter + 1) trueTag))
              (appendInstr (.jnz r1.st.lastVal (mkLabel (r1.st.labelCounter + 1) trueTag)
                  (mkLabel (r1.st.labelCounter + 2) falseTag))
                { dataDefs := r1.st.dataDefs, funcDefs := r1.st.funcDefs, instrs := r1.st.instrs, tmpCounter := r1.st.tmpCounter + 1, labelCounter := r1.st.labelCounter + 3, lastVal := r1.st.lastVal, lastType := r1.st.lastType }))))).labelCounter
      = (appendInstr (.jnz r1.st.lastVal (mkLabel (r1.st.labelCounter + 1) trueTag)
            (mkLabel (r1.st.labelCounter + 2) falseTag))
          { dataDefs := r1.st.dataDefs, funcDefs := r1.st.funcDefs, instrs := r1.st.instrs, tmpCounter := r1.st.tmpCounter + 1, labelCounter := r1.st.labelCounter + 3, lastVal := r1.st.lastVal, lastType := r1.st.lastType }).labelCounter := by
    simp [appendInstr_label, appendInstr_not_ret, endsRet_concat, endsRet_append_cons,
      endsRet_cons_cons, endsRet_single, isRet, List.append_assoc]
  obtain ⟨hc2, hr2, Δ2, hi2, hw2, ht2⟩ := ih _ _ _ h2'
  rw [eS10i] at hi2
  simp only [eS10l] at hw2 hc2 hr2
  have hS10e : endsRet (appendInstr (.label (mkLabel (r1.st.labelCounter + 2) falseTag))
        (appendInstr (.jmp (mkLabel (r1.st.labelCounter + 3) endTag))
          (appendInstr (.binop .add (some (.ident (mkIdent tmpPre (r1.st.tmpCounter + 1))))
              r1.st.lastVal (some (.int 0)))
            (appendInstr (.label (mkLabel (r1.st.labelCounter + 1) trueTag))
              (appendInstr (.jnz r1.st.lastVal (mkLabel (r1.st.labelCounter + 1) trueTag)
                  (mkLabel (r1.st.labelCounter + 2) falseTag))
                { dataDefs := r1.st.dataDefs, funcDefs := r1.st.funcDefs, instrs := r1.st.instrs, tmpCounter := r1.st.tmpCounter + 1, labelCounter := r1.st.labelCounter + 3, lastVal := r1.st.lastVal, lastType := r1.st.lastType }))))).instrs = false := by
    rw [eS10i]
    simp [endsRet_append_cons, endsRet_cons_cons, endsRet_single, isRet]
  have hr2e : endsRet r2.st.instrs = false := (expr_not_endsRet fuel).1 r _ r2 h2' hS10e
  have efin_i : out.st.instrs = r2.st.instrs ++
      [.binop .add (some (.ident (mkIdent tmpPre (r1.st.tmpCounter + 1))))
         r2.st.lastVal (some (.int 0)),
       .label (mkLabel (r1.st.labelCounter + 3) endTag)] := by
    rw [hfin]
    show (appendInstr _ (appendInstr _ r2.st)).instrs = _
    simp [appendInstr_label, appendInstr_not_ret, hr2e, endsRet_concat, isRet,
      List.append_assoc]
  have efin_l : out.st.labelCounter = r2.st.labelCounter := by
    rw [hfin]
    show (appendInstr _ (appendInstr _ r2.st)).labelCounter = _
    simp [appendInstr_label, appendInstr_not_ret, hr2e, endsRet_concat, isRet]
  have rlfin : retLabelChk r2.st.instrs = true → retLabelChk out.st.instrs = true := by
    intro hx
    rw [hfin]
    show retLabelChk (appendInstr _ (appendInstr _ r2.st)).instrs = true
    exact appendInstr_retLabelChk _ _ (appendInstr_retLabelChk _ _ hx)
  have rl10 : retLabelChk (appendInstr (.jnz r1.st.lastVal
          (mkLabel (r1.st.labelCounter + 1) trueTag)
          (mkLabel (r1.st.labelCounter + 2) falseTag))
        { dataDefs := r1.st.dataDefs, funcDefs := r1.st.funcDefs, instrs := r1.st.instrs, tmpCounter := r1.st.tmpCounter + 1, labelCounter := r1.st.labelCounter + 3, lastVal := r1.st.lastVal, lastType := r1.st.lastType }).instrs = true →
      retLabelChk (appendInstr (.label (mkLabel (r1.st.labelCounter + 2) falseTag))
        (appendInstr (.jmp (mkLabel (r1.st.labelCounter + 3) endTag))
          (appendInstr (.binop .add (some (.ident (mkIdent tmpPre (r1.st.tmpCounter + 1))))
              r1.st.lastVal (some (.int 0)))
            (appendInstr (.label (mkLabel (r1.st.labelCounter + 1) trueTag))
              (appendInstr (.jnz r1.st.lastVal (mkLabel (r1.st.labelCounter + 1) trueTag)
                  (mkLabel (r1.st.labelCounter + 2) falseTag))
                { dataDefs := r1.st.dataDefs, funcDefs := r1.st.funcDefs, instrs := r1.st.instrs, tmpCounter := r1.st.tmpCounter + 1, labelCounter := r1.st.labelCounter + 3, lastVal := r1.st.lastVal, lastType := r1.st.lastType }))))).instrs = true :=
    fun hx => appendInstr_retLabelChk _ _ (appendInstr_retLabelChk _ _
      (appendInstr_retLabelChk _ _ (appendInstr_retLabelChk _ _ hx)))
  have wF : LabOK (fun n => n = r1.st.labelCounter + 2)
      [(.label (mkLabel (r1.st.labelCounter + 2) falseTag) : IrInstr)] :=
    LabOK.single_label _ _ rfl
  have wT : LabOK (fun n => n = r1.st.labelCounter + 1)
      [(.label (mkLabel (r1.st.labelCounter + 1) trueTag) : IrInstr)] :=
    LabOK.single_label _ _ rfl
  have wE : LabOK (fun n => n = r1.st.labelCounter + 3)
      [(.label (mkLabel (r1.st.labelCounter + 3) endTag) : IrInstr)] :=
    LabOK.single_label _ _ rfl
  have wm1 : LabOK (fun n => n < 0)
      [(.binop .add (some (.ident (mkIdent tmpPre (r1.st.tmpCounter + 1))))
         r1.st.lastVal (some (.int 0)) : IrInstr)] :=
    LabOK.single_nonlabel _ _ rfl
  have wm2 : LabOK (fun n => n < 0)
      [(.binop .add (some (.ident (mkIdent tmpPre (r1.st.tmpCounter + 1))))
         r2.st.lastVal (some (.int 0)) : IrInstr)] :=
    LabOK.single_nonlabel _ _ rfl
  have wjE : LabOK (fun n => n < 0)
      [(.jmp (mkLabel (r1.st.labelCounter + 3) endTag) : IrInstr)] :=
    LabOK.single_nonlabel _ _ rfl
  have lm1 : labelsOf [(.binop .add (some (.ident (mkIdent tmpPre (r1.st.tmpCounter + 1))))
      r1.st.lastVal (some (.int 0)) : IrInstr)] = [] := labelsOf_single_nonlabel _ rfl
  have lm2 : labelsOf [(.binop .add (some (.ident (mkIdent tmpPre (r1.st.tmpCounter + 1))))
      r2.st.lastVal (some (.int 0)) : IrInstr)] = [] := labelsOf_single_nonlabel _ rfl
  have ljE : labelsOf [(.jmp (mkLabel (r1.st.labelCounter + 3) endTag) : IrInstr)] = [] :=
    labelsOf_single_nonlabel _ rfl
  refine ⟨?_, ?_, Δ1 ++ (mid ++
      ([.label (mkLabel (r1.st.labelCounter + 1) trueTag)] ++
        ([.binop .add (some (.ident (mkIdent tmpPre (r1.st.tmpCounter + 1))))
            r1.st.lastVal (some (.int 0))] ++
          ([.jmp (mkLabel (r1.st.labelCounter + 3) endTag)] ++
            ([.label (mkLabel (r1.st.labelCounter + 2) falseTag)] ++
              (Δ2 ++
                ([.binop .add (some (.ident (mkIdent tmpPre (r1.st.tmpCounter + 1))))
                    r2.st.lastVal (some (.int 0))] ++
                  [.label (mkLabel (r1.st.labelCounter + 3) endTag)]))))))), ?_, ?_, ?_⟩
  · rw [efin_l]
    omega
  · intro hx
    exact rlfin (hr2 (rl10 (m_r' (hr1 hx))))
  · rw [efin_i, hi2, m_i', hi1]
    simp [List.append_assoc]
  · have j1 := LabOK.join wm2 wE (by intro n a b; omega)
    have j2 := LabOK.join hw2 j1 (by intro n a b; omega)
    have j3 := LabOK.join wF j2 (by intro n a b; omega)
    have j4 := LabOK.join wjE j3 (by intro n a b; omega)
    have j5 := LabOK.join wm1 j4 (by intro n a b; omega)
    have j6 := LabOK.join wT j5 (by intro n a b; omega)
    have j7 := LabOK.join m_w' j6 (by intro n a b; omega)
    have j8 := LabOK.join hw1 j7 (by intro n a b; omega)
    refine LabOK.mono ?_ j8
    intro n hn
    rw [efin_l]
    omega
  · intro nm hnm
    simp only [targetsOf_append, labelsOf_append, List.mem_append, m_t', targetsOf_single,
      targetsOfI, labelsOf_single_label, lm1, lm2, ljE, List.mem_singleton, List.mem_cons,
      List.not_mem_nil, or_false, false_or] at hnm ⊢
    rcases hnm with h | h
    · exact Or.inl (ht1 nm h)
    · rcases h with h | h
      · rcases h with h | h
        · exact Or.inr (Or.inr (Or.inl h))
        · exact Or.inr (Or.inr (Or.inr (Or.inl h)))
      · rcases h with h | h
        · exact Or.inr (Or.inr (Or.inr (Or.inr (Or.inr h))))
        · exact Or.inr (Or.inr (Or.inr (Or.inr (Or.inl (ht2 nm h)))))

end Low

namespace Low

/-- `Stepped` for `VisitIf`: assembled from the `then`/`else`/`end`
label allocations, the init and condition segments, the `Jnz` (with a
possible synthetic block label), the then-branch segment, the `Jmp`
(likewise), the optional else segment, and the three label emissions. -/
theorem stepped_ifS (fuel : Nat)
    (ih : ∀ (t : Task) (s : VS) (out : LowOut), lowerGo fuel t s = .ok out → Stepped s out.st)
    (init : List Instr) (cond : Expr) (thenB : List Instr) (els : Option Instr)
    (s : VS) (out : LowOut)
    (h : lowerGo (fuel + 1) (.instr (.ifS init cond thenB els)) s = .ok out) :
    Stepped s out.st := by
  simp only [lowerGo] at h
  obtain ⟨ri, h1, h⟩ := exists_of_bind_ok h
  obtain ⟨rc, h2, h⟩ := exists_of_bind_ok h
  obtain ⟨rt, h3, h⟩ := exists_of_bind_ok h
  have h1' : lowerGo fuel (.seq init) { dataDefs := s.dataDefs, funcDefs := s.funcDefs, instrs := s.instrs, tmpCounter := s.tmpCounter, labelCounter := s.labelCounter + 3, lastVal := s.lastVal, lastType := s.lastType } = .ok ri := h1
  have h3' : lowerGo fuel (.seq thenB)
      (appendInstr (.label (mkLabel (s.labelCounter + 1) thenTag))
        (appendInstr (.jnz rc.st.lastVal (mkLabel (s.labelCounter + 1) thenTag)
            (mkLabel (s.labelCounter + 2) elseTag)) rc.st)) = .ok rt := h3
  have hEx : ∃ re : LowOut,
      Stepped (appendInstr (.label (mkLabel (s.labelCounter + 2) elseTag))
        (appendInstr (.jmp (mkLabel (s.labelCounter + 3) endTag)) rt.st)) re.st ∧
      out.st = appendInstr (.label (mkLabel (s.labelCounter + 3) endTag)) re.st := by
    cases els with
    | none =>
      obtain ⟨re, h4, h⟩ := exists_of_bind_ok h
      refine ⟨re, ?_, ?_⟩
      · injection h4 with h4'
        rw [← h4']
        exact Stepped.refl _
      · injection h with h'
        exact (congrArg LowOut.st h').symm
    | some e =>
      obtain ⟨re, h4, h⟩ := exists_of_bind_ok h
      refine ⟨re, ?_, ?_⟩
      · exact ih _ _ _ (show lowerGo fuel (.instr e)
          (appendInstr (.label (mkLabel (s.labelCounter + 2) elseTag))
            (appendInstr (.jmp (mkLabel (s.labelCounter + 3) endTag)) rt.st)) = .ok re from h4)
      · injection h with h'
        exact (congrArg LowOut.st h').symm
  obtain ⟨re, hre, hfin⟩ := hEx
  obtain ⟨hcI, hrI, Δi, hiI, hwI, htI⟩ := ih _ _ _ h1'
  have hcI' : s.labelCounter + 3 ≤ ri.st.labelCounter := hcI
  have hiI' : ri.st.instrs = s.instrs ++ Δi := hiI
  have hwI' : LabOK (fun n => s.labelCounter + 3 < n ∧ n ≤ ri.st.labelCounter) Δi :=
    LabOK.mono (fun n hn => hn) hwI
  have hrI' : retLabelChk s.instrs = true → retLabelChk ri.st.instrs = true := hrI
  obtain ⟨hcC, hrC, Δc, hiC, hwC, htC⟩ := ih _ _ _ h2
  obtain ⟨mid4, m4_i, m4_l1, m4_l2, m4_t, m4_w, m4_tc, m4_r⟩ :=
    appendInstr_step (.jnz rc.st.lastVal (mkLabel (s.labelCounter + 1) thenTag)
      (mkLabel (s.labelCounter + 2) elseTag)) rc.st rfl
  have m4_t' : targetsOf mid4 =
      [mkLabel (s.labelCounter + 1) thenTag, mkLabel (s.labelCounter + 2) elseTag] := by
    rw [m4_t]; rfl
  have eS5i : (appendInstr (.label (mkLabel (s.labelCounter + 1) thenTag))
        (appendInstr (.jnz rc.st.lastVal (mkLabel (s.labelCounter + 1) thenTag)
            (mkLabel (s.labelCounter + 2) elseTag)) rc.st)).instrs
      = (appendInstr (.jnz rc.st.lastVal (mkLabel (s.labelCounter + 1) thenTag)
            (mkLabel (s.labelCounter + 2) elseTag)) rc.st).instrs
        ++ [.label (mkLabel (s.labelCounter + 1) thenTag)] := by
    simp [appendInstr_label]
  have eS5l : (appendInstr (.label (mkLabel (s.labelCounter + 1) thenTag))
        (appendInstr (.jnz rc.st.lastVal (mkLabel (s.labelCounter + 1) thenTag)
            (mkLabel (s.labelCounter + 2) elseTag)) rc.st)).labelCounter
      = (appendInstr (.jnz rc.st.lastVal (mkLabel (s.labelCounter + 1) thenTag)
            (mkLabel (s.labelCounter + 2) elseTag)) rc.st).labelCounter := by
    simp [appendInstr_label]
  obtain ⟨hcT, hrT, Δt, hiT, hwT, htT⟩ := ih _ _ _ h3'
  rw [eS5i] at hiT
  simp only [eS5l] at hcT hwT
  obtain ⟨mid6, m6_i, m6_l1, m6_l2, m6_t, m6_w, m6_tc, m6_r⟩ :=
    appendInstr_step (.jmp (mkLabel (s.labelCounter + 3) endTag)) rt.st rfl
  have m6_t' : targetsOf mid6 = [mkLabel (s.labelCounter + 3) endTag] := by
    rw [m6_t]; rfl
  have eS7i : (appendInstr (.label (mkLabel (s.labelCounter + 2) elseTag))
        (appendInstr (.jmp (mkLabel (s.labelCounter + 3) endTag)) rt.st)).instrs
      = (appendInstr (.jmp (mkLabel (s.labelCounter + 3) endTag)) rt.st).instrs
        ++ [.label (mkLabel (s.labelCounter + 2) elseTag)] := by
    simp [appendInstr_label]
  have eS7l : (appendInstr (.label (mkLabel (s.labelCounter + 2) elseTag))
        (appendInstr (.jmp (mkLabel (s.labelCounter + 3) endTag)) rt.st)).labelCounter
      = (appendInstr (.jmp (mkLabel (s.labelCounter + 3) endTag)) rt.st).labelCounter := by
    simp [appendInstr_label]
  obtain ⟨hcE, hrE, Δe, hiE, hwE, htE⟩ := hre
  rw [eS7i] at hiE
  simp only [eS7l] at hcE hwE
  have efin_i : out.st.instrs = re.st.instrs ++
      [.label (mkLabel (s.labelCounter + 3) endTag)] := by
    rw [hfin]
    simp [appendInstr_label]
  have efin_l : out.st.labelCounter = re.st.labelCounter := by
    rw [hfin]
    simp [appendInstr_label]
  have rlfin : retLabelChk re.st.instrs = true → retLabelChk out.st.instrs = true := by
    intro hx
    rw [hfin]
    exact appendInstr_retLabelChk _ _ hx
  have rl5 : retLabelChk (appendInstr (.jnz rc.st.lastVal (mkLabel (s.labelCounter + 1) thenTag)
        (mkLabel (s.labelCounter + 2) elseTag)) rc.st).instrs = true →
      retLabelChk (appendInstr (.label (mkLabel (s.labelCounter + 1) thenTag))
        (appendInstr (.jnz rc.st.lastVal (mkLabel (s.labelCounter + 1) thenTag)
            (mkLabel (s.labelCounter + 2) elseTag)) rc.st)).instrs = true :=
    fun hx => appendInstr_retLabelChk _ _ hx
  have rl7 : retLabelChk (appendInstr (.jmp (mkLabel (s.labelCounter + 3) endTag)) rt.st).instrs = true →
      retLabelChk (appendInstr (.label (mkLabel (s.labelCounter + 2) elseTag))
        (appendInstr (.jmp (mkLabel (s.labelCounter + 3) endTag)) rt.st)).instrs = true :=
    fun hx => appendInstr_retLabelChk _ _ hx
  have wT : LabOK (fun n => n = s.labelCounter + 1)
      [(.label (mkLabel (s.labelCounter + 1) thenTag) : IrInstr)] :=
    LabOK.single_label _ _ rfl
  have wF : LabOK (fun n => n = s.labelCounter + 2)
      [(.label (mkLabel (s.labelCounter + 2) elseTag) : IrInstr)] :=
    LabOK.single_label _ _ rfl
  have wE : LabOK (fun n => n = s.labelCounter + 3)
      [(.label (mkLabel (s.labelCounter + 3) endTag) : IrInstr)] :=
    LabOK.single_label _ _ rfl
  refine ⟨?_, ?_, Δi ++ (Δc ++ (mid4 ++
      ([.label (mkLabel (s.labelCounter + 1) thenTag)] ++
        (Δt ++ (mid6 ++
          ([.label (mkLabel (s.labelCounter + 2) elseTag)] ++
            (Δe ++ [.label (mkLabel (s.labelCounter + 3) endTag)]))))))), ?_, ?_, ?_⟩
  · rw [efin_l]
    omega
  · intro hx
    exact rlfin (hrE (rl7 (m6_r (hrT (rl5 (m4_r (hrC (hrI' hx))))))))
  · rw [efin_i, hiE, m6_i, hiT, m4_i, hiC, hiI']
    simp [List.append_assoc]
  · have j1 := LabOK.join hwE wE (by intro n a b; omega)
    have j2 := LabOK.join wF j1 (by intro n a b; omega)
    have j3 := LabOK.join m6_w j2 (by intro n a b; omega)
    have j4 := LabOK.join hwT j3 (by intro n a b; omega)
    have j5 := LabOK.join wT j4 (by intro n a b; omega)
    have j6 := LabOK.join m4_w j5 (by intro n a b; omega)
    have j7 := LabOK.join hwC j6 (by intro n a b; omega)
    have j8 := LabOK.join hwI' j7 (by intro n a b; omega)
    refine LabOK.mono ?_ j8
    intro n hn
    rw [efin_l]
    omega
  · intro nm hnm
    simp only [targetsOf_append, labelsOf_append, List.mem_append, m4_t', m6_t',
      targetsOf_single, targetsOfI, labelsOf_single_label, List.mem_singleton, List.mem_cons,
      List.not_mem_nil, or_false, false_or] at hnm ⊢
    rcases hnm with h | h | (h | h) | h | h | h
    · exact Or.inl (htI nm h)
    · exact Or.inr (Or.inl (htC nm h))
    · exact Or.inr (Or.inr (Or.inr (Or.inl h)))
    · exact Or.inr (Or.inr (Or.inr (Or.inr (Or.inr (Or.inr (Or.inl h))))))
    · exact Or.inr (Or.inr (Or.inr (Or.inr (Or.inl (htT nm h)))))
    · exact Or.inr (Or.inr (Or.inr (Or.inr (Or.inr (Or.inr (Or.inr (Or.inr h)))))))
    · exact Or.inr (Or.inr (Or.inr (Or.inr (Or.inr (Or.inr (Or.inr (Or.inl (htE nm h))))))))

end Low

namespace Low

/-- `Stepped` for `VisitFor`: assembled from the `for`/`body`/`end`
label allocations, the init segment, the `for` label, the condition
segment, the `Jnz` (with a possible synthetic block label), the `body`
label, the body and post segments, the back-edge `Jmp` (likewise), and
the `end` label. -/
theorem stepped_forS (fuel : Nat)
    (ih : ∀ (t : Task) (s : VS) (out : LowOut), lowerGo fuel t s = .ok out → Stepped s out.st)
    (init : List Instr) (cond : Expr) (post : List Instr) (bodyB : List Instr)
    (s : VS) (out : LowOut)
    (h : lowerGo (fuel + 1) (.instr (.forS init cond post bodyB)) s = .ok out) :
    Stepped s out.st := by
  simp only [lowerGo] at h
  obtain ⟨ri, h1, h⟩ := exists_of_bind_ok h
  obtain ⟨rc, h2, h⟩ := exists_of_bind_ok h
  obtain ⟨rb, h3, h⟩ := exists_of_bind_ok h
  obtain ⟨rp, h4, h⟩ := exists_of_bind_ok h
  injection h with h'
  have h1' : lowerGo fuel (.seq init) { dataDefs := s.dataDefs, funcDefs := s.funcDefs, instrs := s.instrs, tmpCounter := s.tmpCounter, labelCounter := s.labelCounter + 3, lastVal := s.lastVal, lastType := s.lastType } = .ok ri := h1
  have h2' : lowerGo fuel (.expr cond)
      (appendInstr (.label (mkLabel (s.labelCounter + 1) forTag)) ri.st) = .ok rc := h2
  have h3' : lowerGo fuel (.seq bodyB)
      (appendInstr (.label (mkLabel (s.labelCounter + 2) bodyTag))
        (appendInstr (.jnz rc.st.lastVal (mkLabel (s.labelCounter + 2) bodyTag)
            (mkLabel (s.labelCounter + 3) endTag)) rc.st)) = .ok rb := h3
  have hfin : out.st = appendInstr (.label (mkLabel (s.labelCounter + 3) endTag))
      (appendInstr (.jmp (mkLabel (s.labelCounter + 1) forTag)) rp.st) :=
    (congrArg LowOut.st h').symm
  obtain ⟨hcI, hrI, Δi, hiI, hwI, htI⟩ := ih _ _ _ h1'
  have hcI' : s.labelCounter + 3 ≤ ri.st.labelCounter := hcI
  have hiI' : ri.st.instrs = s.instrs ++ Δi := hiI
  have hwI' : LabOK (fun n => s.labelCounter + 3 < n ∧ n ≤ ri.st.labelCounter) Δi :=
    LabOK.mono (fun n hn => hn) hwI
  have hrI' : retLabelChk s.instrs = true → retLabelChk ri.st.instrs = true := hrI
  have eS4i : (appendInstr (.label (mkLabel (s.labelCounter + 1) forTag)) ri.st).instrs
      = ri.st.instrs ++ [.label (mkLabel (s.labelCounter + 1) forTag)] := by
    simp [appendInstr_label]
  have eS4l : (appendInstr (.label (mkLabel (s.labelCounter + 1) forTag)) ri.st).labelCounter
      = ri.st.labelCounter := by
    simp [appendInstr_label]
  have rl4 : retLabelChk ri.st.instrs = true →
      retLabelChk (appendInstr (.label (mkLabel (s.labelCounter + 1) forTag)) ri.st).instrs = true :=
    fun hx => appendInstr_retLabelChk _ _ hx
  obtain ⟨hcC, hrC, Δc, hiC, hwC, htC⟩ := ih _ _ _ h2'
  rw [eS4i] at hiC
  simp only [eS4l] at hcC hwC
  obtain ⟨mid5, m5_i, m5_l1, m5_l2, m5_t, m5_w, m5_tc, m5_r⟩ :=
    appendInstr_step (.jnz rc.st.lastVal (mkLabel (s.labelCounter + 2) bodyTag)
      (mkLabel (s.labelCounter + 3) endTag)) rc.st rfl
  have m5_t' : targetsOf mid5 =
      [mkLabel (s.labelCounter + 2) bodyTag, mkLabel (s.labelCounter + 3) endTag] := by
    rw [m5_t]; rfl
  have eS6i : (appendInstr (.label (mkLabel (s.labelCounter + 2) bodyTag))
        (appendInstr (.jnz rc.st.lastVal (mkLabel (s.labelCounter + 2) bodyTag)
            (mkLabel (s.labelCounter + 3) endTag)) rc.st)).instrs
      = (appendInstr (.jnz rc.st.lastVal (mkLabel (s.labelCounter + 2) bodyTag)
            (mkLabel (s.labelCounter + 3) endTag)) rc.st).instrs
        ++ [.label (mkLabel (s.labelCounter + 2) bodyTag)] := by
    simp [appendInstr_label]
  have eS6l : (appendInstr (.label (mkLabel (s.labelCounter + 2) bodyTag))
        (appendInstr (.jnz rc.st.lastVal (mkLabel (s.labelCounter + 2) bodyTag)
            (mkLabel (s.labelCounter + 3) endTag)) rc.st)).labelCounter
      = (appendInstr (.jnz rc.st.lastVal (mkLabel (s.labelCounter + 2) bodyTag)
            (mkLabel (s.labelCounter + 3) endTag)) rc.st).labelCounter := by
    simp [appendInstr_label]
  have rl6 : retLabelChk (appendInstr (.jnz rc.st.lastVal (mkLabel (s.labelCounter + 2) bodyTag)
          (mkLabel (s.labelCounter + 3) endTag)) rc.st).instrs = true →
      retLabelChk (appendInstr (.label (mkLabel (s.labelCounter + 2) bodyTag))
        (appendInstr (.jnz rc.st.lastVal (mkLabel (s.labelCounter + 2) bodyTag)
            (mkLabel (s.labelCounter + 3) endTag)) rc.st)).instrs = true :=
    fun hx => appendInstr_retLabelChk _ _ hx
  obtain ⟨hcB, hrB, Δb, hiB, hwB, htB⟩ := ih _ _ _ h3'
  rw [eS6i] at hiB
  simp only [eS6l] at hcB hwB
  obtain ⟨hcP, hrP, Δp, hiP, hwP, htP⟩ := ih _ _ _ h4
  obtain ⟨mid7, m7_i, m7_l1, m7_l2, m7_t, m7_w, m7_tc, m7_r⟩ :=
    appendInstr_step (.jmp (mkLabel (s.labelCounter + 1) forTag)) rp.st rfl
  have m7_t' : targetsOf mid7 = [mkLabel (s.labelCounter + 1) forTag] := by
    rw [m7_t]; rfl
  have efin_i : out.st.instrs =
      (appendInstr (.jmp (mkLabel (s.labelCounter + 1) forTag)) rp.st).instrs
        ++ [.label (mkLabel (s.labelCounter + 3) endTag)] := by
    rw [hfin]
    simp [appendInstr_label]
  have efin_l : out.st.labelCounter =
      (appendInstr (.jmp (mkLabel (s.labelCounter + 1) forTag)) rp.st).labelCounter := by
    rw [hfin]
    simp [appendInstr_label]
  have rlfin : retLabelChk (appendInstr (.jmp (mkLabel (s.labelCounter + 1) forTag))
        rp.st).instrs = true →
      retLabelChk out.st.instrs = true := by
    intro hx
    rw [hfin]
    exact appendInstr_retLabelChk _ _ hx
  have wS : LabOK (fun n => n = s.labelCounter + 1)
      [(.label (mkLabel (s.labelCounter + 1) forTag) : IrInstr)] :=
    LabOK.single_label _ _ rfl
  have wB : LabOK (fun n => n = s.labelCounter + 2)
      [(.label (mkLabel (s.labelCounter + 2) bodyTag) : IrInstr)] :=
    LabOK.single_label _ _ rfl
  have wE : LabOK (fun n => n = s.labelCounter + 3)
      [(.label (mkLabel (s.labelCounter + 3) endTag) : IrInstr)] :=
    LabOK.single_label _ _ rfl
  refine ⟨?_, ?_, Δi ++
      ([.label (mkLabel (s.labelCounter + 1) forTag)] ++
        (Δc ++ (mid5 ++
          ([.label (mkLabel (s.labelCounter + 2) bodyTag)] ++
            (Δb ++ (Δp ++ (mid7 ++
              [.label (mkLabel (s.labelCounter + 3) endTag)]))))))), ?_, ?_, ?_⟩
  · rw [efin_l]
    omega
  · intro hx
    exact rlfin (m7_r (hrP (hrB (rl6 (m5_r (hrC (rl4 (hrI' hx))))))))
  · rw [efin_i, m7_i, hiP, hiB, m5_i, hiC, hiI']
    simp [List.append_assoc]
  · have j1 := LabOK.join m7_w wE (by intro n a b; omega)
    have j2 := LabOK.join hwP j1 (by intro n a b; omega)
    have j3 := LabOK.join hwB j2 (by intro n a b; omega)
    have j4 := LabOK.join wB j3 (by intro n a b; omega)
    have j5 := LabOK.join m5_w j4 (by intro n a b; omega)
    have j6 := LabOK.join hwC j5 (by intro n a b; omega)
    have j7 := LabOK.join wS j6 (by intro n a b; omega)
    have j8 := LabOK.join hwI' j7 (by intro n a b; omega)
    refine LabOK.mono ?_ j8
    intro n hn
    rw [efin_l]
    omega
  · intro nm hnm
    simp only [targetsOf_append, labelsOf_append, List.mem_append, m5_t', m7_t',
      targetsOf_single, targetsOfI, labelsOf_single_label, List.mem_singleton, List.mem_cons,
      List.not_mem_nil, or_false, false_or] at hnm ⊢
    rcases hnm with h | h | (h | h) | h | h | h
    · exact Or.inl (htI nm h)
    · exact Or.inr (Or.inr (Or.inl (htC nm h)))
    · exact Or.inr (Or.inr (Or.inr (Or.inr (Or.inl h))))
    · exact Or.inr (Or.inr (Or.inr (Or.inr (Or.inr (Or.inr (Or.inr (Or.inr h)))))))
    · exact Or.inr (Or.inr (Or.inr (Or.inr (Or.inr (Or.inl (htB nm h))))))
    · exact Or.inr (Or.inr (Or.inr (Or.inr (Or.inr (Or.inr (Or.inl (htP nm h)))))))
    · exact Or.inr (Or.inl h)

end Low

namespace Low

/-- Append one plain instruction and update the result slots. -/
theorem stepped_upd1 {s0 s : VS} (i1 : IrInstr) (v : Option Val) (t : Option AstType)
    (h : Stepped s0 s) (h1 : isLabel i1 = false) (t1 : targetsOfI i1 = []) :
    Stepped s0 { appendInstr i1 s with lastVal := v, lastType := t } :=
  (h.postAppend i1 h1 t1).post _ rfl rfl

/-- Append two plain instructions and update the result slots. -/
theorem stepped_upd2 {s0 s : VS} (i1 i2 : IrInstr) (v : Option Val) (t : Option AstType)
    (h : Stepped s0 s) (h1 : isLabel i1 = false) (t1 : targetsOfI i1 = [])
    (h2 : isLabel i2 = false) (t2 : targetsOfI i2 = []) :
    Stepped s0 { appendInstr i2 (appendInstr i1 s) with lastVal := v, lastType := t } :=
  ((h.postAppend i1 h1 t1).postAppend i2 h2 t2).post _ rfl rfl

/-- Append one plain instruction and update the value slot. -/
theorem stepped_updV {s0 s : VS} (i1 : IrInstr) (v : Option Val)
    (h : Stepped s0 s) (h1 : isLabel i1 = false) (t1 : targetsOfI i1 = []) :
    Stepped s0 { appendInstr i1 s with lastVal := v } :=
  (h.postAppend i1 h1 t1).post _ rfl rfl

/-- Master invariant of the lowering visitor: every successful task
lowering is a `Stepped` transition — it only appends instructions, the
appended segment's labels are fresh, numbered within the label-counter
window and pairwise distinct, its jump targets resolve within the
segment, and the ret-label adjacency is preserved. -/
theorem lowerGo_stepped :
    ∀ (fuel : Nat) (t : Task) (s : VS) (out : LowOut),
      lowerGo fuel t s = .ok out → Stepped s out.st := by
  intro fuel
  induction fuel with
  | zero => intro t s out h; simp [lowerGo] at h
  | succ fuel ih =>
    intro t s out h
    match t with
    | .expr e =>
      match e with
      | .literal ty i b sv =>
        match ty with
        | none => simp [lowerGo] at h
        | some tt =>
          match htt : tt.kind with
          | .int =>
            simp only [lowerGo, htt] at h
            injection h with h'
            rw [← h']
            exact Stepped.of_fields rfl rfl
          | .bool =>
            simp only [lowerGo, htt] at h
            injection h with h'
            rw [← h']
            exact Stepped.of_fields rfl rfl
          | .string =>
            simp only [lowerGo, htt, nextIdent] at h
            injection h with h'
            rw [← h']
            exact Stepped.of_fields rfl rfl
          | .void => simp [lowerGo, htt] at h
          | .pointer => simp [lowerGo, htt] at h
          | .unknown => simp [lowerGo, htt] at h
          | .vararg => simp [lowerGo, htt] at h
          | .any => simp [lowerGo, htt] at h
          | .array => simp [lowerGo, htt] at h
      | .variableRef x ty =>
        simp only [lowerGo] at h
        injection h with h'
        rw [← h']
        exact Stepped.of_fields rfl rfl
      | .deref e1 ty =>
        simp only [lowerGo] at h
        obtain ⟨r, h1, h⟩ := exists_of_bind_ok h
        simp only [nextIdent] at h
        injection h with h'
        rw [← h']
        exact stepped_upd1 _ _ _ ((ih _ _ _ h1).post _ rfl rfl) rfl rfl
      | .binop op l r ty =>
        cases op
        case logAnd => exact stepped_logAnd fuel ih l r ty s out h
        case logOr => exact stepped_logOr fuel ih l r ty s out h
        all_goals
          (simp only [lowerGo] at h
           obtain ⟨r1, h1, h⟩ := exists_of_bind_ok h
           obtain ⟨r2, h2, h⟩ := exists_of_bind_ok h
           have w2 : Stepped s r2.st :=
             Stepped.trans ((ih _ _ _ h1).fieldsPre s rfl rfl)
               ((ih _ _ _ h2).fieldsPre _ rfl rfl)
           simp only [nextIdent] at h
           split at h <;>
             (injection h with h'
              rw [← h']
              first
                | exact stepped_upd2 _ _ _ _ (w2.post _ rfl rfl) rfl rfl rfl rfl
                | exact stepped_upd1 _ _ _ w2 rfl rfl))
      | .call ident args ty =>
        simp only [lowerGo] at h
        obtain ⟨ra, h1, h⟩ := exists_of_bind_ok h
        simp only [nextIdent] at h
        injection h with h'
        rw [← h']
        exact stepped_updV _ _ ((ih _ _ _ h1).post _ rfl rfl) rfl rfl
    | .args l =>
      match l with
      | [] =>
        simp only [lowerGo] at h
        injection h with h'
        rw [← h']
        exact Stepped.refl s
      | a :: rest =>
        simp only [lowerGo] at h
        obtain ⟨r1, h1, h⟩ := exists_of_bind_ok h
        obtain ⟨r2, h2, h⟩ := exists_of_bind_ok h
        injection h with h'
        rw [← h']
        have wr : Stepped r1.st r2.st := ih _ _ _ h2
        exact Stepped.trans ((ih _ _ _ h1).fieldsPre s rfl rfl) wr
    | .instr i =>
      match i with
      | .declare _ _ =>
        simp only [lowerGo] at h
        injection h with h'
        rw [← h']
        exact Stepped.refl s
      | .assign lhs value =>
        simp only [lowerGo] at h
        obtain ⟨rv, h1, h⟩ := exists_of_bind_ok h
        match lhs with
        | .deref p _ty =>
          obtain ⟨rp, h2, h⟩ := exists_of_bind_ok h
          injection h with h'
          rw [← h']
          exact (Stepped.trans ((ih _ _ _ h1).fieldsPre s rfl rfl)
            ((ih _ _ _ h2).fieldsPre _ rfl rfl)).postAppend _ rfl rfl
        | .var x ty =>
          injection h with h'
          rw [← h']
          exact (((ih _ _ _ h1).fieldsPre s rfl rfl).post
            { rv.st with lastVal := some (.ident x), lastType := ty } rfl rfl).postAppend
            _ rfl rfl
      | .call ident args ty =>
        simp only [lowerGo] at h
        obtain ⟨ra, h1, h⟩ := exists_of_bind_ok h
        simp only [nextIdent] at h
        injection h with h'
        rw [← h']
        exact stepped_updV _ _ ((ih _ _ _ h1).post _ rfl rfl) rfl rfl
      | .ret value =>
        match value with
        | none =>
          simp only [lowerGo] at h
          injection h with h'
          rw [← h']
          exact (Stepped.refl s).postAppend _ rfl rfl
        | some e =>
          simp only [lowerGo] at h
          obtain ⟨rv, h1, h⟩ := exists_of_bind_ok h
          injection h with h'
          rw [← h']
          exact ((ih _ _ _ h1).fieldsPre s rfl rfl).postAppend _ rfl rfl
      | .ifS init cond thenB els =>
        exact stepped_ifS fuel ih init cond thenB els s out h
      | .forS init cond post bodyB =>
        exact stepped_forS fuel ih init cond post bodyB s out h
      | .body instrs =>
        simp only [lowerGo] at h
        exact ih _ _ _ h
    | .seq l =>
      match l with
      | [] =>
        simp only [lowerGo] at h
        injection h with h'
        rw [← h']
        exact Stepped.refl s
      | i :: rest =>
        simp only [lowerGo] at h
        obtain ⟨r1, h1, h⟩ := exists_of_bind_ok h
        exact Stepped.trans (ih _ _ _ h1) (ih _ _ _ h)

end Low

namespace Low

/-- In a segment whose labels satisfy `LabOK`, every label name that
occurs at all occurs exactly once. -/
theorem count_labels_once {Δ : List IrInstr} {S : Nat → Prop} (hw : LabOK S Δ)
    (t : Name) (ht : t ∈ labelsOf Δ) : (labelsOf Δ).count t = 1 := by
  obtain ⟨hdec, hcnt⟩ := hw
  obtain ⟨n, hn⟩ := hdec t ht
  have hle : (labelsOf Δ).count t ≤ cntL Δ n := by
    rw [cntL, ← List.countP_eq_length_filter, List.count]
    apply List.countP_mono_left
    intro x _hx hxe
    have : x = t := by simpa using hxe
    subst this
    simpa using hn
  have hpos : 0 < (labelsOf Δ).count t := List.count_pos_iff.2 ht
  have := (hcnt n).1
  omega

/-- `VisitFuncDef` appends exactly one function to the unit, and its
linear instruction list (the single `start` block, when a body is
present) satisfies the ret-label adjacency check and names each jump
target as a label exactly once. -/
theorem lowerFuncDef_shape (fuel : Nat) (fd : AstFuncDef) (s s' : VS)
    (h : lowerFuncDef fuel fd s = .ok s') :
    ∃ f', s'.funcDefs = s.funcDefs ++ [f'] ∧
      retLabelChk (f'.blocks.flatMap Prod.snd) = true ∧
      ∀ t ∈ targetsOf (f'.blocks.flatMap Prod.snd),
        (labelsOf (f'.blocks.flatMap Prod.snd)).count t = 1 := by
  simp only [lowerFuncDef] at h
  rcases hln : fd.attrs.linkname with _ | av
  · rw [hln] at h
    obtain ⟨ln, hl, h⟩ := exists_of_bind_ok h
    injection hl with hl'
    subst hl'
    rcases hb : fd.funcBody with _ | b
    · rw [hb] at h
      injection h with h'
      refine ⟨_, by rw [← h'], ?_, ?_⟩
      · rfl
      · intro t htg
        simp [targetsOf, List.flatMap] at htg
    · rw [hb] at h
      obtain ⟨r, h1, h⟩ := exists_of_bind_ok h
      injection h with h'
      obtain ⟨hc, hr, Δ, hi, hw, ht⟩ := lowerGo_stepped fuel _ _ _ h1
      have hfd : r.st.funcDefs = s.funcDefs := (lowerGo_funcDefs fuel _ _ _ h1).trans rfl
      have hi0 : r.st.instrs = [] ++ Δ := hi
      rw [List.nil_append] at hi0
      have hrl : retLabelChk r.st.instrs = true := hr rfl
      refine ⟨_, by rw [← h']; show r.st.funcDefs ++ _ = _; rw [hfd], ?_, ?_⟩
      · show retLabelChk (List.flatMap [(['s','t','a','r','t'], r.st.instrs)] Prod.snd) = true
        simp only [List.flatMap_cons, List.flatMap_nil, List.append_nil]
        exact hrl
      · show ∀ t ∈ targetsOf (List.flatMap [(['s','t','a','r','t'], r.st.instrs)] Prod.snd), _
        simp only [List.flatMap_cons, List.flatMap_nil, List.append_nil]
        intro t htg
        rw [hi0] at htg ⊢
        exact count_labels_once hw t (ht t htg)
  · rcases av with _ | nm | i
    · rw [hln] at h
      cases h
    · rw [hln] at h
      obtain ⟨ln, hl, h⟩ := exists_of_bind_ok h
      injection hl with hl'
      subst hl'
      rcases hb : fd.funcBody with _ | b
      · rw [hb] at h
        injection h with h'
        refine ⟨_, by rw [← h'], ?_, ?_⟩
        · rfl
        · intro t htg
          simp [targetsOf, List.flatMap] at htg
      · rw [hb] at h
        obtain ⟨r, h1, h⟩ := exists_of_bind_ok h
        injection h with h'
        obtain ⟨hc, hr, Δ, hi, hw, ht⟩ := lowerGo_stepped fuel _ _ _ h1
        have hfd : r.st.funcDefs = s.funcDefs := (lowerGo_funcDefs fuel _ _ _ h1).trans rfl
        have hi0 : r.st.instrs = [] ++ Δ := hi
        rw [List.nil_append] at hi0
        have hrl : retLabelChk r.st.instrs = true := hr rfl
        refine ⟨_, by rw [← h']; show r.st.funcDefs ++ _ = _; rw [hfd], ?_, ?_⟩
        · show retLabelChk (List.flatMap [(['s','t','a','r','t'], r.st.instrs)] Prod.snd) = true
          simp only [List.flatMap_cons, List.flatMap_nil, List.append_nil]
          exact hrl
        · show ∀ t ∈ targetsOf (List.flatMap [(['s','t','a','r','t'], r.st.instrs)] Prod.snd), _
          simp only [List.flatMap_cons, List.flatMap_nil, List.append_nil]
          intro t htg
          rw [hi0] at htg ⊢
          exact count_labels_once hw t (ht t htg)
    · rw [hln] at h
      cases h

/-- Lowering a function list preserves and extends the per-function
block invariants. -/
theorem lowerFuncs_shape (fuel : Nat) :
    ∀ (fds : List AstFuncDef) (s s' : VS),
      lowerFuncs fuel fds s = .ok s' →
      (∀ fd ∈ s.funcDefs, retLabelChk (fd.blocks.flatMap Prod.snd) = true ∧
        ∀ t ∈ targetsOf (fd.blocks.flatMap Prod.snd),
          (labelsOf (fd.blocks.flatMap Prod.snd)).count t = 1) →
      ∀ fd ∈ s'.funcDefs, retLabelChk (fd.blocks.flatMap Prod.snd) = true ∧
        ∀ t ∈ targetsOf (fd.blocks.flatMap Prod.snd),
          (labelsOf (fd.blocks.flatMap Prod.snd)).count t = 1 := by
  intro fds
  induction fds with
  | nil =>
    intro s s' h hpre
    simp only [lowerFuncs] at h
    injection h with h'
    rw [← h']
    exact hpre
  | cons fd rest ihf =>
    intro s s' h hpre
    simp only [lowerFuncs] at h
    obtain ⟨s1, h1, h⟩ := exists_of_bind_ok h
    obtain ⟨f', hf1, hf2, hf3⟩ := lowerFuncDef_shape fuel fd s s1 h1
    refine ihf s1 s' h ?_
    intro g hg
    rw [hf1] at hg
    rcases List.mem_append.1 hg with hg | hg
    · exact hpre g hg
    · rw [List.mem_singleton] at hg
      subst hg
      exact ⟨hf2, hf3⟩

/-- Per-function invariants of a whole successfully lowered unit. -/
theorem lowerUnit_shape (fuel : Nat) (u : AstUnit) (ir : IrUnit)
    (h : lowerUnit fuel u = .ok ir) :
    ∀ fd ∈ ir.funcDefs, retLabelChk (fd.blocks.flatMap Prod.snd) = true ∧
      ∀ t ∈ targetsOf (fd.blocks.flatMap Prod.snd),
        (labelsOf (fd.blocks.flatMap Prod.snd)).count t = 1 := by
  simp only [lowerUnit] at h
  obtain ⟨sf, h1, h⟩ := exists_of_bind_ok h
  injection h with h'
  intro fd hfd
  rw [← h'] at hfd
  have hfd' : fd ∈ sf.funcDefs := hfd
  refine lowerFuncs_shape fuel u.funcs initVS sf h1 ?_ fd hfd'
  intro g hg
  simp [initVS] at hg

end Low

namespace Low

/-- C4.  In every IR function produced by a successful lowering, no
instruction other than a `Label` ever directly follows a `Ret` in the
function's linear instruction list: `appendInstruction` inserts a
fresh `LNNNN_block` label before appending any non-label instruction
directly after a `Ret`. -/
theorem c4_ret_label (fuel : Nat) (u : AstUnit) (ir : IrUnit)
    (h : lowerUnit fuel u = .ok ir) :
    ∀ fd ∈ ir.funcDefs, retLabelChk (fd.blocks.flatMap Prod.snd) = true :=
  fun fd hfd => (lowerUnit_shape fuel u ir h fd hfd).1

/-- Witness for C4 at a concrete input: a function body that lowers a
statement after a bare `return` (so the synthetic block label is
actually inserted) passes the adjacency check. -/
theorem c4_witness :
    ∃ ir, lowerUnit 20 retThenCallUnit = .ok ir ∧
      ∀ fd ∈ ir.funcDefs, retLabelChk (fd.blocks.flatMap Prod.snd) = true := by
  have hok : (lowerUnit 20 retThenCallUnit).toOption.isSome = true := by decide
  cases hE : lowerUnit 20 retThenCallUnit with
  | error e => rw [hE] at hok; simp [Except.toOption] at hok
  | ok ir => exact ⟨ir, rfl, c4_ret_label 20 retThenCallUnit ir hE⟩

/-- C5.  In every IR function produced by a successful lowering, every
label named as a target by a `Jnz` or `Jmp` occurs as a `Label`
instruction exactly once in that function's linear instruction list. -/
theorem c5_jump_targets (fuel : Nat) (u : AstUnit) (ir : IrUnit)
    (h : lowerUnit fuel u = .ok ir) :
    ∀ fd ∈ ir.funcDefs, ∀ t ∈ targetsOf (fd.blocks.flatMap Prod.snd),
      (labelsOf (fd.blocks.flatMap Prod.snd)).count t = 1 :=
  fun fd hfd => (lowerUnit_shape fuel u ir h fd hfd).2

/-- Witness for C5 at a concrete input: an `if` with a `return` in the
then-branch emits `Jnz`/`Jmp` instructions, and each of their targets
appears exactly once as a label. -/
theorem c5_witness :
    ∃ ir, lowerUnit 32 ifRetUnit = .ok ir ∧
      ∀ fd ∈ ir.funcDefs, ∀ t ∈ targetsOf (fd.blocks.flatMap Prod.snd),
        (labelsOf (fd.blocks.flatMap Prod.snd)).count t = 1 := by
  have hok : (lowerUnit 32 ifRetUnit).toOption.isSome = true := by decide
  cases hE : lowerUnit 32 ifRetUnit with
  | error e => rw [hE] at hok; simp [Except.toOption] at hok
  | ok ir => exact ⟨ir, rfl, c5_jump_targets 32 ifRetUnit ir hE⟩

end Low

namespace Low

/-- Witness for C10 at a concrete input: a mixed run of the three
prefixes from the initial state yields pairwise distinct names. -/
theorem c10_witness :
    ((nextIdents [strPre, tmpPre, idxPre] initVS).1).Pairwise (· ≠ ·) :=
  c10_shared_counter.2.1 [strPre, tmpPre, idxPre] initVS (by decide)

end Low
